import Mathlib

/-!
# Mouse mark effect (KWin plugin `mousemark`)

A shallow embedding of `src/plugins/mousemark/mousemark.cpp` and `mousemark.h`:
the per-channel store of marks being drawn, the list of finished marks, the
drawing mode, the set of consumed touch points, and the event handlers that
change them.

Conventions of the embedding

* `qreal` coordinates are rationals (every finite `double` is one). The
  arithmetic of `createArrow` on `double`s and the C library calls `atan2`,
  `cos`, `sin` are taken as a parameter (`FloatOps`), so that their rounding is
  that of the platform.
* `QPointF::operator==` is Qt's comparison with a tolerance (`qFuzzyCompare`,
  `qFuzzyIsNull`), written out in `QPointF.equal`. Its arithmetic is exact here;
  on `double`s the difference of two values within a factor two of each other
  is exact, and so is the product with 1e12 wherever it is close to the bound.
* `qint32` channel and touch ids are integers; `id + 1` is assumed not to
  overflow.
* `QMap<qint32, Mark>` is the list of its entries in iteration order, which for
  a `QMap` is ascending key order (`QMap.WF`).
* `QSet<qint32>` is a list of its members.
* Calls of `effects->addRepaint` and `effects->addRepaintFull` are recorded, in
  order, in the field `repaints`.
-/

namespace KWin

/-- A `QPointF`: a point of the plane with `qreal` coordinates. -/
structure QPointF where
  x : ℚ
  y : ℚ
deriving DecidableEq, Repr

/-- A mark is the list of its points, `typedef QList<QPointF> Mark`. -/
abbrev Mark := List QPointF

/-- The drawing mode, `enum class State` of `mousemark.h`. -/
inductive State where
  | NONE
  | FREEHAND
  | ARROW
deriving DecidableEq, Repr

/-- A `QRect`, held as Qt holds it: the left, top, right and bottom coordinates. -/
structure QRect where
  x1 : Int
  y1 : Int
  x2 : Int
  y2 : Int
deriving DecidableEq, Repr

/-- The constructor `QRect(left, top, width, height)`. -/
def QRect.mk4 (left top width height : Int) : QRect :=
  { x1 := left, y1 := top, x2 := left + width - 1, y2 := top + height - 1 }

/-- The member `QRect::adjust(dx1, dy1, dx2, dy2)`. -/
def QRect.adjust (r : QRect) (dx1 dy1 dx2 dy2 : Int) : QRect :=
  { x1 := r.x1 + dx1, y1 := r.y1 + dy1, x2 := r.x2 + dx2, y2 := r.y2 + dy2 }

/-- A repaint request made to the compositor. -/
inductive Repaint where
  | full
  | rect (r : QRect)
deriving DecidableEq, Repr

/-- Conversion of a `double` to `int`, as C++ does it implicitly when a `double`
is passed for an `int` parameter: the fractional part is dropped. -/
def truncToInt (q : ℚ) : Int :=
  if 0 ≤ q then ⌊q⌋ else ⌈q⌉

/-- The floating-point operations used by `createArrow`: `atan2`, `cos`, `sin`
of `<cmath>`, the constant `M_PI`, and the arithmetic of `double` (each result
rounded to a `double`). -/
structure FloatOps where
  atan2 : ℚ → ℚ → ℚ
  cos : ℚ → ℚ
  sin : ℚ → ℚ
  M_PI : ℚ
  add : ℚ → ℚ → ℚ
  sub : ℚ → ℚ → ℚ
  mul : ℚ → ℚ → ℚ
  div : ℚ → ℚ → ℚ

/-- `qFuzzyIsNull(double d)` of Qt: `qAbs(d) <= 0.000000000001`. No `double`
lies between that constant and 1e-12. -/
def qFuzzyIsNull (d : ℚ) : Bool :=
  decide (|d| ≤ 1 / 1000000000000)

/-- `qFuzzyCompare(double p1, double p2)` of Qt:
`qAbs(p1 - p2) * 1000000000000. <= qMin(qAbs(p1), qAbs(p2))`. -/
def qFuzzyCompare (p1 p2 : ℚ) : Bool :=
  decide (|p1 - p2| * 1000000000000 ≤ min |p1| |p2|)

/-- `QPointF::operator==` of Qt, for each coordinate
`(!p1.xp || !p2.xp) ? qFuzzyIsNull(p1.xp - p2.xp) : qFuzzyCompare(p1.xp, p2.xp)`;
`operator!=` is its negation. -/
def QPointF.equal (p1 p2 : QPointF) : Bool :=
  (if p1.x = 0 ∨ p2.x = 0 then qFuzzyIsNull (p1.x - p2.x) else qFuzzyCompare p1.x p2.x)
    && (if p1.y = 0 ∨ p2.y = 0 then qFuzzyIsNull (p1.y - p2.y) else qFuzzyCompare p1.y p2.y)

/-- `QList::last()` / `QList::back()`; the code calls it on non-empty lists only. -/
def last (m : Mark) : QPointF := m.getLastD ⟨0, 0⟩

/-- `QList::first()` / `QList::front()`; the code calls it on non-empty lists only. -/
def first (m : Mark) : QPointF := m.headD ⟨0, 0⟩

/-- The entries of a `QMap<qint32, Mark>` in iteration order. -/
abbrev QMap := List (Int × Mark)

namespace QMap

/-- Keys of a `QMap` are strictly ascending in iteration order. -/
def WF (m : QMap) : Prop := m.Pairwise (fun a b => a.1 < b.1)

/-- `QMap::contains(key)`. -/
def contains (m : QMap) (key : Int) : Bool := m.any (fun en => en.1 == key)

/-- The value stored under `key`, if there is one. -/
def find? (m : QMap) (key : Int) : Option Mark := (List.find? (fun en => en.1 == key) m).map Prod.snd

/-- `QMap::value(key)`: the stored value, or a default-constructed (empty) mark. -/
def value (m : QMap) (key : Int) : Mark := (find? m key).getD []

/-- `QMap::insert(key, value)`: replaces the value of an existing key, otherwise
adds the entry at its place in key order. -/
def insert : QMap → Int → Mark → QMap
  | [], key, v => [(key, v)]
  | (k, w) :: rest, key, v =>
    if key < k then (key, v) :: (k, w) :: rest
    else if key = k then (key, v) :: rest
    else (k, w) :: insert rest key v

/-- The effect on the map of `operator[](key)`: a key that is absent is inserted
with a default-constructed (empty) mark. -/
def index (m : QMap) (key : Int) : QMap :=
  if contains m key then m else insert m key []

/-- `QMap::remove(key)`. -/
def remove (m : QMap) (key : Int) : QMap := m.filter (fun en => en.1 ≠ key)

/-- The values in iteration order. -/
def values (m : QMap) : List Mark := m.map Prod.snd

/-- The keys in iteration order. -/
def keys (m : QMap) : List Int := m.map Prod.fst

/-- The buffers listed by ascending channel id: the channels are sorted and each
one is looked up. -/
def valuesAscending (m : QMap) : List Mark :=
  (List.insertionSort (fun a b => a ≤ b) (keys m)).map (fun k => value m k)

end QMap

/-- A `QSet<qint32>`, as a list of its members. -/
abbrev QSet := List Int

namespace QSet

/-- `QSet::contains(id)`. -/
def contains (s : QSet) (id : Int) : Bool := decide (id ∈ s)

/-- `QSet::insert(id)`. -/
def insert (s : QSet) (id : Int) : QSet := if id ∈ s then s else id :: s

/-- `QSet::remove(id)`. -/
def remove (s : QSet) (id : Int) : QSet := s.filter (fun j => j ≠ id)

end QSet

/-- The member variables of `MouseMarkEffect` that the event handlers read and
write, and the log of repaint requests. -/
structure MouseMarkEffect where
  marks : List Mark
  drawings : QMap
  state : State
  touchPoints : QSet
  width : Int
  touchDrawEnabled : Bool
  m_freedraw_modifiers : Nat
  m_arrowdraw_modifiers : Nat
  repaints : List Repaint
deriving DecidableEq, Repr

namespace MouseMarkEffect

/-- `effects->addRepaintFull()`. -/
def addRepaintFull (e : MouseMarkEffect) : MouseMarkEffect :=
  { e with repaints := e.repaints ++ [Repaint.full] }

/-- `effects->addRepaint(rect)`. -/
def addRepaint (e : MouseMarkEffect) (r : QRect) : MouseMarkEffect :=
  { e with repaints := e.repaints ++ [Repaint.rect r] }

/-- The angle `atan2(arrow_tail.y() - arrow_head.y(), arrow_tail.x() - arrow_head.x())`
computed by `createArrow`. -/
def arrowAngle (F : FloatOps) (arrow_head arrow_tail : QPointF) : ℚ :=
  F.atan2 (F.sub arrow_tail.y arrow_head.y) (F.sub arrow_tail.x arrow_head.x)

/-- The `double` `50 * cos(angle + M_PI / 6)` of `createArrow`. -/
def barbRightX (F : FloatOps) (arrow_head arrow_tail : QPointF) : ℚ :=
  F.mul 50 (F.cos (F.add (arrowAngle F arrow_head arrow_tail) (F.div F.M_PI 6)))

/-- The `double` `50 * sin(angle + M_PI / 6)` of `createArrow`. -/
def barbRightY (F : FloatOps) (arrow_head arrow_tail : QPointF) : ℚ :=
  F.mul 50 (F.sin (F.add (arrowAngle F arrow_head arrow_tail) (F.div F.M_PI 6)))

/-- The `double` `50 * cos(angle - M_PI / 6)` of `createArrow`. -/
def barbLeftX (F : FloatOps) (arrow_head arrow_tail : QPointF) : ℚ :=
  F.mul 50 (F.cos (F.sub (arrowAngle F arrow_head arrow_tail) (F.div F.M_PI 6)))

/-- The `double` `50 * sin(angle - M_PI / 6)` of `createArrow`. -/
def barbLeftY (F : FloatOps) (arrow_head arrow_tail : QPointF) : ℚ :=
  F.mul 50 (F.sin (F.sub (arrowAngle F arrow_head arrow_tail) (F.div F.M_PI 6)))

/-- `MouseMarkEffect::createArrow(arrow_head, arrow_tail)`. The two barb offsets
are built with `QPoint(int, int)`, so the `double` arguments are converted to
`int`; `arrow_head + QPoint(..)` adds the coordinates as `double`s. -/
def createArrow (F : FloatOps) (arrow_head arrow_tail : QPointF) : Mark :=
  [ arrow_tail,
    arrow_head,
    ⟨F.add arrow_head.x (truncToInt (barbRightX F arrow_head arrow_tail) : ℚ),
     F.add arrow_head.y (truncToInt (barbRightY F arrow_head arrow_tail) : ℚ)⟩,
    arrow_head,
    ⟨F.add arrow_head.x (truncToInt (barbLeftX F arrow_head arrow_tail) : ℚ),
     F.add arrow_head.y (truncToInt (barbLeftY F arrow_head arrow_tail) : ℚ)⟩,
    arrow_head ]

/-- `MouseMarkEffect::endDrawings()`: every buffer is appended to `marks` in
iteration order, then the store is cleared. -/
def endDrawings (e : MouseMarkEffect) : MouseMarkEffect :=
  let marks1 := e.drawings.foldl (fun acc en => acc ++ [en.2]) e.marks
  addRepaintFull { e with marks := marks1, drawings := [] }

/-- `MouseMarkEffect::endDraw(channel)`. -/
def endDraw (e : MouseMarkEffect) (channel : Int) : MouseMarkEffect :=
  if !e.drawings.contains channel then e
  else
    addRepaintFull
      { e with marks := e.marks ++ [e.drawings.value channel],
               drawings := e.drawings.remove channel }

/-- What the loop of `setState` does to one buffer after copying it: with at
least two points, `mark.first() = mark.last(); mark.resize(1)`. -/
def continueMark (mark : Mark) : Mark :=
  if mark.length ≥ 2 then [last mark] else mark

/-- The loop of `setState` for the modes `ARROW` and `FREEHAND`: each buffer is
appended to `marks`, and a buffer of at least two points is cut down to its last
point. Returns the new entries and the new `marks`. -/
def flushAndContinue : List (Int × Mark) → List Mark → List (Int × Mark) × List Mark
  | [], marks => ([], marks)
  | (k, mark) :: rest, marks =>
    let marks1 := marks ++ [mark]
    let mark1 := continueMark mark
    let r := flushAndContinue rest marks1
    ((k, mark1) :: r.1, r.2)

/-- `MouseMarkEffect::setState(newState)`. -/
def setState (e : MouseMarkEffect) (newState : State) : MouseMarkEffect :=
  if e.state = newState then e
  else
    let e1 := { e with state := newState }
    match newState with
    | State.NONE => endDrawings e1
    | State.ARROW | State.FREEHAND =>
      let r := flushAndContinue e1.drawings e1.marks
      { e1 with drawings := r.1, marks := r.2 }

/-- `MouseMarkEffect::processPoint(id, pos)`. The reference `drawings[id]` is
taken before the mode is looked at. -/
def processPoint (F : FloatOps) (e : MouseMarkEffect) (id : Int) (pos : QPointF) :
    MouseMarkEffect :=
  let ds := e.drawings.index id
  let drawing := ds.value id
  match e.state with
  | State.NONE => { e with drawings := ds }
  | State.FREEHAND =>
    let drawing1 := if drawing.isEmpty then drawing ++ [pos] else drawing
    if QPointF.equal (last drawing1) pos then
      { e with drawings := ds.insert id drawing1 }
    else
      let pos2 := last drawing1
      let drawing2 := drawing1 ++ [pos]
      let repaint := QRect.mk4 (truncToInt (min pos.x pos2.x)) (truncToInt (min pos.y pos2.y))
        (truncToInt (max pos.x pos2.x)) (truncToInt (max pos.y pos2.y))
      let repaint1 := repaint.adjust (-e.width) (-e.width) e.width e.width
      addRepaint { e with drawings := ds.insert id drawing2 } repaint1
  | State.ARROW =>
    if drawing.length < 1 then
      { e with drawings := ds.insert id (drawing ++ [pos]) }
    else if !QPointF.equal (last drawing) pos then
      let tail := first drawing
      addRepaintFull { e with drawings := ds.insert id (createArrow F pos tail) }
    else
      { e with drawings := ds }

/-- `MouseMarkEffect::touchDown(id, pos, time)`; the result is the returned
flag (true: the event is consumed) and the new state. -/
def touchDown (F : FloatOps) (e : MouseMarkEffect) (id : Int) (pos : QPointF) :
    Bool × MouseMarkEffect :=
  if !e.touchDrawEnabled || e.state = State.NONE then (false, e)
  else if e.touchPoints.contains id then (true, e)
  else
    let e1 := { e with touchPoints := e.touchPoints.insert id }
    (true, processPoint F e1 (id + 1) pos)

/-- `MouseMarkEffect::touchMotion(id, pos, time)`. -/
def touchMotion (F : FloatOps) (e : MouseMarkEffect) (id : Int) (pos : QPointF) :
    Bool × MouseMarkEffect :=
  if !e.touchDrawEnabled || e.state = State.NONE then
    if e.touchPoints.contains id then (true, e) else (false, e)
  else (true, processPoint F e (id + 1) pos)

/-- `MouseMarkEffect::touchUp(id, time)`. -/
def touchUp (e : MouseMarkEffect) (id : Int) : Bool × MouseMarkEffect :=
  if !e.touchDrawEnabled || e.state = State.NONE then
    if e.touchPoints.contains id then
      (true, { e with touchPoints := e.touchPoints.remove id })
    else (false, e)
  else
    let e1 := endDraw e (id + 1)
    if !e1.touchPoints.contains id then (false, e1)
    else (true, { e1 with touchPoints := e1.touchPoints.remove id })

/-- `MouseMarkEffect::slotMouseChanged(pos, _, _, _, modifiers, _)`; `locked` is
the answer of `effects->isScreenLocked()`. -/
def slotMouseChanged (F : FloatOps) (e : MouseMarkEffect) (locked : Bool) (pos : QPointF)
    (modifiers : Nat) : MouseMarkEffect :=
  if locked then e
  else
    let e1 :=
      if modifiers = e.m_freedraw_modifiers then setState e State.FREEHAND
      else if modifiers = e.m_arrowdraw_modifiers then setState e State.ARROW
      else setState e State.NONE
    processPoint F e1 0 pos

/-- `MouseMarkEffect::clear()`. -/
def clear (e : MouseMarkEffect) : MouseMarkEffect :=
  addRepaintFull { e with drawings := [], marks := [] }

/-- `MouseMarkEffect::clearLast()`. The test is on `drawings.size()`, the number
of entries of the map. -/
def clearLast (e : MouseMarkEffect) : MouseMarkEffect :=
  if e.drawings.length > 1 then
    addRepaintFull { e with drawings := [] }
  else if !e.marks.isEmpty then
    addRepaintFull { e with marks := e.marks.dropLast }
  else e

/-- `MouseMarkEffect::screenLockingChanged(locked)`. -/
def screenLockingChanged (e : MouseMarkEffect) (_locked : Bool) : MouseMarkEffect :=
  if !e.marks.isEmpty || !e.drawings.isEmpty then addRepaintFull e else e

/-- `MouseMarkEffect::isActive()`; `locked` is the answer of
`effects->isScreenLocked()`. -/
def isActive (e : MouseMarkEffect) (locked : Bool) : Bool :=
  (!e.marks.isEmpty || !e.drawings.isEmpty) && !locked

end MouseMarkEffect

/-- A state in mode `NONE` with nothing drawn, for the given configuration. -/
def initial (width : Int) (touch : Bool) (freedraw arrowdraw : Nat) : MouseMarkEffect :=
  { marks := [], drawings := [], state := State.NONE, touchPoints := [],
    width := width, touchDrawEnabled := touch,
    m_freedraw_modifiers := freedraw, m_arrowdraw_modifiers := arrowdraw,
    repaints := [] }

/-- `Qt::ShiftModifier`. -/
def ShiftModifier : Nat := 0x02000000
/-- `Qt::ControlModifier`. -/
def ControlModifier : Nat := 0x04000000
/-- `Qt::AltModifier`. -/
def AltModifier : Nat := 0x08000000
/-- `Qt::MetaModifier`. -/
def MetaModifier : Nat := 0x10000000

/-- A small stand-in for the floating-point operations, used for witnesses:
exact arithmetic, short Taylor polynomials for `cos` and `sin`, and an `atan2`
that is right on the positive x axis and rough elsewhere. -/
def sampleOps : FloatOps :=
  { atan2 := fun y x =>
      if y = 0 then (if 0 ≤ x then 0 else 355 / 113)
      else if 0 < x then y / x - (y / x) ^ 3 / 3
      else if 0 < y then 355 / 226 - x / y
      else -(355 / 226) - x / y,
    cos := fun x => 1 - x ^ 2 / 2 + x ^ 4 / 24 - x ^ 6 / 720,
    sin := fun x => x - x ^ 3 / 6 + x ^ 5 / 120,
    M_PI := 355 / 113,
    add := fun a b => a + b,
    sub := fun a b => a - b,
    mul := fun a b => a * b,
    div := fun a b => a / b }

/-- The state `initial 3 true (Shift+Meta) (Shift+Meta+Alt)`: the default
configuration of the effect, nothing drawn. -/
def sampleInitial : MouseMarkEffect :=
  initial 3 true (ShiftModifier + MetaModifier) (ShiftModifier + MetaModifier + AltModifier)

/-- A state in the middle of drawing: mode `FREEHAND`, one completed mark, a
stroke of three points on the pointer channel 0 and a one-point buffer on
channel 6 (touch 5). -/
def sampleDrawing : MouseMarkEffect :=
  { sampleInitial with
    state := State.FREEHAND,
    marks := [[⟨0, 0⟩, ⟨1, 1⟩]],
    drawings := [(0, [⟨0, 0⟩, ⟨10, 0⟩, ⟨10, 10⟩]), (6, [⟨3, 3⟩])],
    touchPoints := [5] }

/-- What `processPoint` does in mode `FREEHAND` to the buffer `drawing` of the
channel when `pos` is delivered. -/
def freehandBuffer (drawing : Mark) (pos : QPointF) : Mark :=
  let drawing1 := if drawing.isEmpty then drawing ++ [pos] else drawing
  if QPointF.equal (last drawing1) pos then drawing1 else drawing1 ++ [pos]

/-- What `processPoint` does in mode `ARROW` to the buffer `drawing` of the
channel when `pos` is delivered. -/
def arrowBuffer (F : FloatOps) (drawing : Mark) (pos : QPointF) : Mark :=
  if drawing.length < 1 then drawing ++ [pos]
  else if !QPointF.equal (last drawing) pos then
    MouseMarkEffect.createArrow F pos (first drawing)
  else drawing

/-- The points of `ps` that `processPoint` keeps when `q` is the last point
kept: a point that `QPointF::operator==` finds equal to the last point kept is
dropped. -/
def keptAfter (q : QPointF) : List QPointF → List QPointF
  | [] => []
  | p :: ps => if QPointF.equal q p then keptAfter q ps else p :: keptAfter p ps

/-- The first point of a sequence followed by the points kept after it. -/
def kept : List QPointF → List QPointF
  | [] => []
  | p :: ps => p :: keptAfter p ps

/-- The points `ps` delivered one after the other to channel `id` by
`processPoint`. -/
def deliverPoints (F : FloatOps) (e : MouseMarkEffect) (id : Int) (ps : List QPointF) :
    MouseMarkEffect :=
  ps.foldl (fun acc p => MouseMarkEffect.processPoint F acc id p) e

/-- A sequence of points in which every run of equal adjacent points is kept
once, the order being preserved. -/
def collapseRuns : List QPointF → List QPointF
  | [] => []
  | [p] => [p]
  | p :: q :: rest =>
    if p = q then collapseRuns (q :: rest) else p :: collapseRuns (q :: rest)

/-- The bounding box of the segment from `q` to `p`, outset by `width` on all
four sides: top-left corner (min x, min y), width max x - min x, height
max y - min y. -/
def boundingRepaint (p q : QPointF) (width : Int) : QRect :=
  (QRect.mk4 (truncToInt (min p.x q.x)) (truncToInt (min p.y q.y))
    (truncToInt (max p.x q.x) - truncToInt (min p.x q.x))
    (truncToInt (max p.y q.y) - truncToInt (min p.y q.y))).adjust
    (-width) (-width) width width

/-- The events the host delivers to the effect. `pointer` carries the answer of
`effects->isScreenLocked()` at the time of the update. -/
inductive Event where
  | pointer (locked : Bool) (pos : QPointF) (modifiers : Nat)
  | touchDown (id : Int) (pos : QPointF)
  | touchMotion (id : Int) (pos : QPointF)
  | touchUp (id : Int)
  | clear
  | clearLast
  | screenLock (locked : Bool)

/-- The handler that an event runs. -/
def step (F : FloatOps) (e : MouseMarkEffect) : Event → MouseMarkEffect
  | Event.pointer locked pos modifiers =>
    MouseMarkEffect.slotMouseChanged F e locked pos modifiers
  | Event.touchDown id pos => (MouseMarkEffect.touchDown F e id pos).2
  | Event.touchMotion id pos => (MouseMarkEffect.touchMotion F e id pos).2
  | Event.touchUp id => (MouseMarkEffect.touchUp e id).2
  | Event.clear => MouseMarkEffect.clear e
  | Event.clearLast => MouseMarkEffect.clearLast e
  | Event.screenLock locked => MouseMarkEffect.screenLockingChanged e locked

/-- The state after a sequence of events. -/
def run (F : FloatOps) (e : MouseMarkEffect) (events : List Event) : MouseMarkEffect :=
  events.foldl (step F) e

/-- The events of a short session: two pointer updates with the arrow modifiers
of `sampleInitial`, at (0,0) and (10,0), then `touchDown(4, (7,7))`. -/
def sampleEvents : List Event :=
  [Event.pointer false ⟨0, 0⟩ (ShiftModifier + MetaModifier + AltModifier),
   Event.pointer false ⟨10, 0⟩ (ShiftModifier + MetaModifier + AltModifier),
   Event.touchDown 4 ⟨7, 7⟩]

/-- The shape of the store in each mode: in mode `NONE` it is empty or holds
only an empty buffer for the pointer channel 0, in mode `FREEHAND` every buffer
has at least one point, in mode `ARROW` every buffer is a single point or an
arrow built by `createArrow`. -/
def StoreInv (F : FloatOps) (e : MouseMarkEffect) : Prop :=
  match e.state with
  | State.NONE => e.drawings = [] ∨ e.drawings = [(0, [])]
  | State.FREEHAND => ∀ en ∈ e.drawings, 1 ≤ en.2.length
  | State.ARROW => ∀ en ∈ e.drawings,
      (∃ s : QPointF, en.2 = [s])
        ∨ (∃ h s : QPointF, en.2 = MouseMarkEffect.createArrow F h s)

end KWin

namespace KWin

open MouseMarkEffect

/-! ## The comparison of points -/

theorem qFuzzyIsNull_zero : qFuzzyIsNull 0 = true := by
  simp [qFuzzyIsNull]

theorem qFuzzyCompare_self (x : ℚ) : qFuzzyCompare x x = true := by
  simp [qFuzzyCompare]

theorem QPointF.equal_refl (p : QPointF) : QPointF.equal p p = true := by
  simp [QPointF.equal, qFuzzyIsNull_zero, qFuzzyCompare_self]

/-! ## Lemmas on the map of buffers -/

theorem QMap.contains_insert (m : QMap) (key : Int) (v : Mark) :
    QMap.contains (QMap.insert m key v) key = true := by
  induction m with
  | nil => simp [QMap.insert, QMap.contains]
  | cons en rest ih =>
    obtain ⟨k, w⟩ := en
    unfold QMap.insert
    split_ifs with h1 h2
    · simp [QMap.contains]
    · simp [QMap.contains]
    · simp only [QMap.contains, List.any_cons] at ih ⊢
      simp [ih]

theorem QMap.find?_insert_self (m : QMap) (key : Int) (v : Mark) :
    QMap.find? (QMap.insert m key v) key = some v := by
  induction m with
  | nil => simp [QMap.insert, QMap.find?]
  | cons en rest ih =>
    obtain ⟨k, w⟩ := en
    unfold QMap.insert
    split_ifs with h1 h2
    · simp [QMap.find?]
    · simp [QMap.find?]
    · have hk : (k == key) = false := by
        simp only [beq_eq_false_iff_ne, ne_eq]
        exact fun h => h2 h.symm
      simp only [QMap.find?] at ih ⊢
      simp [List.find?_cons, hk, ih]

/-! ## Pointer strokes -/

/-- C1: from mode `NONE` with nothing drawn, three pointer updates at (0,0),
(10,0), (10,10) with the freehand modifiers and then one update whose modifiers
match neither configured set leave exactly the mark [(0,0),(10,0),(10,10)] in
the completed marks; the store, however, is not empty: the closing update has
put an empty buffer under channel 0. -/
theorem slotMouseChanged_stroke_then_release (F : FloatOps) (e : MouseMarkEffect)
    (p : QPointF) (m : Nat)
    (hs : e.state = State.NONE) (hd : e.drawings = []) (hm : e.marks = [])
    (h1 : m ≠ e.m_freedraw_modifiers) (h2 : m ≠ e.m_arrowdraw_modifiers) :
    (slotMouseChanged F
      (slotMouseChanged F
        (slotMouseChanged F
          (slotMouseChanged F e false ⟨0, 0⟩ e.m_freedraw_modifiers)
          false ⟨10, 0⟩ e.m_freedraw_modifiers)
        false ⟨10, 10⟩ e.m_freedraw_modifiers)
      false p m).marks = [[⟨0, 0⟩, ⟨10, 0⟩, ⟨10, 10⟩]]
    ∧
    (slotMouseChanged F
      (slotMouseChanged F
        (slotMouseChanged F
          (slotMouseChanged F e false ⟨0, 0⟩ e.m_freedraw_modifiers)
          false ⟨10, 0⟩ e.m_freedraw_modifiers)
        false ⟨10, 10⟩ e.m_freedraw_modifiers)
      false p m).drawings = [(0, [])] := by
  obtain ⟨marks, drawings, state, tp, w, td, fm, am, rp⟩ := e
  simp only at hs hd hm h1 h2
  subst hs hd hm
  have e1 : QPointF.equal ⟨0, 0⟩ ⟨10, 0⟩ = false := by decide!
  have e2 : QPointF.equal ⟨10, 0⟩ ⟨10, 10⟩ = false := by decide!
  simp [slotMouseChanged, setState, processPoint, flushAndContinue, endDrawings, addRepaint,
    addRepaintFull, QMap.index, QMap.contains, QMap.insert, QMap.value, QMap.find?, last, h1, h2,
    QPointF.equal_refl, e1, e2]

/-- Witness of C1's theorem: the default configuration, released with no
modifier held. -/
theorem slotMouseChanged_stroke_then_release_witness :
    (slotMouseChanged sampleOps
      (slotMouseChanged sampleOps
        (slotMouseChanged sampleOps
          (slotMouseChanged sampleOps sampleInitial false ⟨0, 0⟩ sampleInitial.m_freedraw_modifiers)
          false ⟨10, 0⟩ sampleInitial.m_freedraw_modifiers)
        false ⟨10, 10⟩ sampleInitial.m_freedraw_modifiers)
      false ⟨10, 10⟩ 0).marks = [[⟨0, 0⟩, ⟨10, 0⟩, ⟨10, 10⟩]]
    ∧
    (slotMouseChanged sampleOps
      (slotMouseChanged sampleOps
        (slotMouseChanged sampleOps
          (slotMouseChanged sampleOps sampleInitial false ⟨0, 0⟩ sampleInitial.m_freedraw_modifiers)
          false ⟨10, 0⟩ sampleInitial.m_freedraw_modifiers)
        false ⟨10, 10⟩ sampleInitial.m_freedraw_modifiers)
      false ⟨10, 10⟩ 0).drawings = [(0, [])] :=
  slotMouseChanged_stroke_then_release sampleOps sampleInitial ⟨10, 10⟩ 0 rfl rfl rfl
    (by decide) (by decide)

/-! ## Undo -/

/-- C2: with exactly one channel in the store, whatever the number of points of
its buffer, `clearLast` leaves the store as it is and removes the last completed
mark: the test of `clearLast` counts channels, not points. -/
theorem clearLast_single_channel (e : MouseMarkEffect) (c : Int) (b : Mark)
    (h : e.drawings = [(c, b)]) :
    (clearLast e).drawings = [(c, b)] ∧ (clearLast e).marks = e.marks.dropLast := by
  unfold clearLast
  rw [h]
  by_cases hm : e.marks = []
  · simp [hm, h]
  · simp [hm, h, addRepaintFull]

/-- Witness of C2's theorem, scenario A: one buffer of three points on channel
0 and no completed marks; the buffer is still there after `clearLast`. -/
theorem clearLast_single_channel_witness :
    (clearLast { sampleInitial with drawings := [(0, [⟨0, 0⟩, ⟨1, 0⟩, ⟨2, 0⟩])] }).drawings
        = [(0, [⟨0, 0⟩, ⟨1, 0⟩, ⟨2, 0⟩])]
      ∧ (clearLast { sampleInitial with drawings := [(0, [⟨0, 0⟩, ⟨1, 0⟩, ⟨2, 0⟩])] }).marks
        = ({ sampleInitial with
              drawings := [(0, [⟨0, 0⟩, ⟨1, 0⟩, ⟨2, 0⟩])] } : MouseMarkEffect).marks.dropLast :=
  clearLast_single_channel _ 0 [⟨0, 0⟩, ⟨1, 0⟩, ⟨2, 0⟩] rfl

/-- C3: with an empty store and completed marks `ms ++ [m]`, `clearLast` leaves
the completed marks `ms` and the store empty. -/
theorem clearLast_removes_last_mark (e : MouseMarkEffect) (ms : List Mark) (m : Mark)
    (hd : e.drawings = []) (hm : e.marks = ms ++ [m]) :
    (clearLast e).marks = ms ∧ (clearLast e).drawings = [] := by
  unfold clearLast
  simp [hd, hm, addRepaintFull]

/-- Witness of C3's theorem, scenario B: of two completed marks the first
remains. -/
theorem clearLast_removes_last_mark_witness :
    (clearLast { sampleInitial with
        marks := [[⟨0, 0⟩, ⟨1, 1⟩], [⟨5, 5⟩, ⟨6, 5⟩]] }).marks = [[⟨0, 0⟩, ⟨1, 1⟩]]
      ∧ (clearLast { sampleInitial with
        marks := [[⟨0, 0⟩, ⟨1, 1⟩], [⟨5, 5⟩, ⟨6, 5⟩]] }).drawings = [] :=
  clearLast_removes_last_mark _ [[⟨0, 0⟩, ⟨1, 1⟩]] [⟨5, 5⟩, ⟨6, 5⟩] rfl rfl

/-! ## Points delivered in mode `NONE` -/

/-- C4: in mode `NONE`, `processPoint` on a channel that has no buffer leaves
the completed marks and the mode unchanged but does change the store: the
channel is in it afterwards, with an empty buffer, and the effect reports
itself active. -/
theorem processPoint_none_creates_buffer (F : FloatOps) (e : MouseMarkEffect) (id : Int)
    (pos : QPointF) (hs : e.state = State.NONE) (hc : e.drawings.contains id = false) :
    (processPoint F e id pos).drawings = e.drawings.insert id []
      ∧ (processPoint F e id pos).drawings.contains id = true
      ∧ (processPoint F e id pos).drawings.find? id = some []
      ∧ (processPoint F e id pos).isActive false = true
      ∧ (processPoint F e id pos).marks = e.marks
      ∧ (processPoint F e id pos).state = e.state := by
  have hd : (processPoint F e id pos).drawings = e.drawings.insert id [] := by
    simp [processPoint, hs, QMap.index, hc]
  have hne : (processPoint F e id pos).drawings ≠ [] := by
    intro h0
    have := QMap.contains_insert e.drawings id []
    rw [← hd, h0] at this
    simp [QMap.contains] at this
  refine ⟨hd, ?_, ?_, ?_, ?_, ?_⟩
  · rw [hd]; exact QMap.contains_insert _ _ _
  · rw [hd]; exact QMap.find?_insert_self _ _ _
  · simp [isActive, hne]
  · simp [processPoint, hs]
  · simp [processPoint, hs]

/-- Witness of C4's theorem: nothing drawn, mode `NONE`, a pointer position
delivered on channel 0. -/
theorem processPoint_none_creates_buffer_witness :
    sampleInitial.state = State.NONE ∧ sampleInitial.drawings = [] ∧
    ((processPoint sampleOps sampleInitial 0 ⟨5, 5⟩).drawings = sampleInitial.drawings.insert 0 []
      ∧ (processPoint sampleOps sampleInitial 0 ⟨5, 5⟩).drawings.contains 0 = true
      ∧ (processPoint sampleOps sampleInitial 0 ⟨5, 5⟩).drawings.find? 0 = some []
      ∧ (processPoint sampleOps sampleInitial 0 ⟨5, 5⟩).isActive false = true
      ∧ (processPoint sampleOps sampleInitial 0 ⟨5, 5⟩).marks = sampleInitial.marks
      ∧ (processPoint sampleOps sampleInitial 0 ⟨5, 5⟩).state = sampleInitial.state) :=
  ⟨rfl, rfl, processPoint_none_creates_buffer sampleOps sampleInitial 0 ⟨5, 5⟩ rfl rfl⟩

/-! ## Touch sequences -/

theorem processPoint_touchPoints (F : FloatOps) (e : MouseMarkEffect) (id : Int)
    (pos : QPointF) : (processPoint F e id pos).touchPoints = e.touchPoints := by
  unfold processPoint
  cases e.state
  · rfl
  · simp only []
    split_ifs <;> rfl
  · simp only []
    split_ifs <;> rfl

theorem endDraw_touchPoints (e : MouseMarkEffect) (channel : Int) :
    (endDraw e channel).touchPoints = e.touchPoints := by
  unfold endDraw
  split_ifs <;> rfl

theorem QSet.mem_remove (s : QSet) (id j : Int) :
    j ∈ QSet.remove s id ↔ j ∈ s ∧ j ≠ id := by
  simp [QSet.remove]

/-- C5 (counterexample): in mode `NONE` with touch drawing enabled,
`touchDown(5, (1,1))` does not return true and does not put 5 into the set of
touch points. -/
theorem touchDown_none_counterexample :
    sampleInitial.state = State.NONE ∧ sampleInitial.touchDrawEnabled = true ∧
      ¬ ((touchDown sampleOps sampleInitial 5 ⟨1, 1⟩).1 = true
          ∧ 5 ∈ (touchDown sampleOps sampleInitial 5 ⟨1, 1⟩).2.touchPoints) := by
  decide

/-- C5 (amended): in mode `NONE`, whether touch drawing is enabled or not,
`touchDown(id, p)` returns false (not consumed) and changes nothing: the set of
touch points is as before and no buffer is created. -/
theorem touchDown_none (F : FloatOps) (e : MouseMarkEffect) (id : Int) (p : QPointF)
    (hs : e.state = State.NONE) : touchDown F e id p = (false, e) := by
  simp [touchDown, hs]

/-- Witness of C5's amended theorem. -/
theorem touchDown_none_witness :
    sampleInitial.state = State.NONE ∧
      touchDown sampleOps sampleInitial 5 ⟨1, 1⟩ = (false, sampleInitial) :=
  ⟨rfl, touchDown_none sampleOps sampleInitial 5 ⟨1, 1⟩ rfl⟩

/-- C6: for a touch id that is in the set of touch points, in every mode and
whatever `touchDrawEnabled` is, `touchMotion` returns true and leaves the set
unchanged, and `touchUp` returns true and removes exactly that id from the set. -/
theorem touch_sequence_consumed (F : FloatOps) (e : MouseMarkEffect) (id : Int) (p : QPointF)
    (h : id ∈ e.touchPoints) :
    (touchMotion F e id p).1 = true
      ∧ (touchMotion F e id p).2.touchPoints = e.touchPoints
      ∧ (touchUp e id).1 = true
      ∧ (touchUp e id).2.touchPoints = e.touchPoints.remove id
      ∧ ∀ j : Int, j ∈ (touchUp e id).2.touchPoints ↔ (j ∈ e.touchPoints ∧ j ≠ id) := by
  have hc : QSet.contains e.touchPoints id = true := by simp [QSet.contains, h]
  have hm1 : (touchMotion F e id p).1 = true := by
    unfold touchMotion
    split_ifs <;> simp_all
  have hm2 : (touchMotion F e id p).2.touchPoints = e.touchPoints := by
    unfold touchMotion
    split_ifs
    · rfl
    · exact processPoint_touchPoints F e (id + 1) p
  have hc1 : QSet.contains (endDraw e (id + 1)).touchPoints id = true := by
    rw [endDraw_touchPoints]; exact hc
  have hu1 : (touchUp e id).1 = true := by
    unfold touchUp
    split_ifs <;> simp_all
  have hu2 : (touchUp e id).2.touchPoints = e.touchPoints.remove id := by
    unfold touchUp
    split_ifs
    · rfl
    · simp [endDraw_touchPoints, hc]
  refine ⟨hm1, hm2, hu1, hu2, ?_⟩
  intro j
  rw [hu2]
  exact QSet.mem_remove _ _ _

/-- Witness of C6's theorem: touch 5 is being consumed while the mode is
`FREEHAND` and its channel 6 holds a buffer; touch 7 stays in the set. -/
theorem touch_sequence_consumed_witness :
    (5 : Int) ∈ [5, 7] ∧
    ((touchMotion sampleOps { sampleInitial with
          state := State.FREEHAND, touchPoints := [5, 7],
          drawings := [(6, [⟨1, 1⟩])] } 5 ⟨2, 2⟩).1 = true
      ∧ (touchMotion sampleOps { sampleInitial with
          state := State.FREEHAND, touchPoints := [5, 7],
          drawings := [(6, [⟨1, 1⟩])] } 5 ⟨2, 2⟩).2.touchPoints = [5, 7]
      ∧ (touchUp { sampleInitial with
          state := State.FREEHAND, touchPoints := [5, 7],
          drawings := [(6, [⟨1, 1⟩])] } 5).1 = true
      ∧ (touchUp { sampleInitial with
          state := State.FREEHAND, touchPoints := [5, 7],
          drawings := [(6, [⟨1, 1⟩])] } 5).2.touchPoints = QSet.remove [5, 7] 5
      ∧ ∀ j : Int, j ∈ (touchUp { sampleInitial with
          state := State.FREEHAND, touchPoints := [5, 7],
          drawings := [(6, [⟨1, 1⟩])] } 5).2.touchPoints ↔ (j ∈ [5, 7] ∧ j ≠ 5)) :=
  ⟨by decide,
   touch_sequence_consumed sampleOps { sampleInitial with
      state := State.FREEHAND, touchPoints := [5, 7],
      drawings := [(6, [⟨1, 1⟩])] } 5 ⟨2, 2⟩ (by decide)⟩

/-! ## Arrow geometry -/

/-- C7: `createArrow(head, tail)` has exactly 6 points, the first is the tail
and the points of index 1, 3 and 5 are the head; this holds for every head and
tail, equal or not. -/
theorem createArrow_shape (F : FloatOps) (head tail : QPointF) :
    (createArrow F head tail).length = 6
      ∧ (createArrow F head tail)[0]? = some tail
      ∧ (createArrow F head tail)[1]? = some head
      ∧ (createArrow F head tail)[3]? = some head
      ∧ (createArrow F head tail)[5]? = some head := by
  simp [createArrow]

theorem QMap.value_cons_self (k : Int) (v : Mark) (rest : QMap) :
    QMap.value ((k, v) :: rest) k = v := by
  simp [QMap.value, QMap.find?]

theorem QMap.value_cons_of_ne (k key : Int) (v : Mark) (rest : QMap) (h : k ≠ key) :
    QMap.value ((k, v) :: rest) key = QMap.value rest key := by
  have hk : (k == key) = false := by simpa using h
  simp [QMap.value, QMap.find?, List.find?_cons, hk]

theorem QMap.map_value_keys (m : QMap) (h : m.WF) :
    (QMap.keys m).map (fun k => QMap.value m k) = QMap.values m := by
  induction m with
  | nil => rfl
  | cons en rest ih =>
    obtain ⟨k, v⟩ := en
    have hp := List.pairwise_cons.mp h
    have hrest : (QMap.keys rest).map (fun key => QMap.value ((k, v) :: rest) key)
        = (QMap.keys rest).map (fun key => QMap.value rest key) := by
      apply List.map_congr_left
      intro key hkey
      obtain ⟨en, hen, rfl⟩ := List.mem_map.mp hkey
      exact QMap.value_cons_of_ne k en.1 v rest (ne_of_lt (hp.1 en hen))
    simp only [QMap.keys, QMap.values, List.map_cons] at ih hrest ⊢
    rw [QMap.value_cons_self, hrest, ih hp.2]

theorem QMap.keys_sorted (m : QMap) (h : m.WF) :
    List.Sorted (fun a b : Int => a ≤ b) (QMap.keys m) := by
  unfold QMap.keys List.Sorted
  rw [List.pairwise_map]
  exact List.Pairwise.imp (fun hab => le_of_lt hab) h

theorem QMap.valuesAscending_eq_values (m : QMap) (h : m.WF) :
    QMap.valuesAscending m = QMap.values m := by
  unfold QMap.valuesAscending
  rw [List.Sorted.insertionSort_eq (QMap.keys_sorted m h)]
  exact QMap.map_value_keys m h

theorem foldl_append_marks (l : QMap) (ms : List Mark) :
    List.foldl (fun acc en => acc ++ [en.2]) ms l = ms ++ QMap.values l := by
  induction l generalizing ms with
  | nil => simp [QMap.values]
  | cons en rest ih => simp [List.foldl_cons, ih, QMap.values]

theorem flushAndContinue_marks (l : QMap) (ms : List Mark) :
    (flushAndContinue l ms).2 = ms ++ QMap.values l := by
  induction l generalizing ms with
  | nil => simp [flushAndContinue, QMap.values]
  | cons en rest ih =>
    obtain ⟨k, v⟩ := en
    simp [flushAndContinue, ih, QMap.values]

theorem flushAndContinue_drawings (l : QMap) (ms : List Mark) :
    (flushAndContinue l ms).1 = l.map (fun en => (en.1, continueMark en.2)) := by
  induction l generalizing ms with
  | nil => simp [flushAndContinue]
  | cons en rest ih =>
    obtain ⟨k, v⟩ := en
    simp [flushAndContinue, ih]

theorem QMap.find?_map_values (l : QMap) (f : Mark → Mark) (c : Int) :
    QMap.find? (l.map (fun en => (en.1, f en.2))) c = (QMap.find? l c).map f := by
  induction l with
  | nil => rfl
  | cons en rest ih =>
    obtain ⟨k, v⟩ := en
    simp only [QMap.find?] at ih ⊢
    by_cases hk : (k == c) = true
    · simp [List.find?_cons, hk]
    · simp only [Bool.not_eq_true] at hk
      simp only [List.map_cons, List.find?_cons, hk]
      exact ih

theorem QMap.keys_map_values (l : QMap) (f : Mark → Mark) :
    QMap.keys (l.map (fun en => (en.1, f en.2))) = QMap.keys l := by
  simp [QMap.keys, List.map_map, Function.comp_def]

theorem QMap.WF_map_values (l : QMap) (f : Mark → Mark) (h : l.WF) :
    QMap.WF (l.map (fun en => (en.1, f en.2))) := by
  unfold QMap.WF at h ⊢
  rw [List.pairwise_map]
  exact h

theorem setState_drawing_mode (e : MouseMarkEffect) (newState : State)
    (hne : e.state ≠ newState) (hn : newState ≠ State.NONE) :
    setState e newState =
      { e with state := newState,
               drawings := (flushAndContinue e.drawings e.marks).1,
               marks := (flushAndContinue e.drawings e.marks).2 } := by
  unfold setState
  rw [if_neg hne]
  cases newState with
  | NONE => exact absurd rfl hn
  | FREEHAND => rfl
  | ARROW => rfl

theorem last_of_getLast? (b : Mark) (q : QPointF) (h : b.getLast? = some q) : last b = q := by
  simp [last, h]

/-- C9: a `setState` from `FREEHAND` to `ARROW` or from `ARROW` to `FREEHAND`
appends a copy of every in-progress buffer to the completed marks, in ascending
channel order; a buffer of at least 2 points becomes the one-point buffer of its
old last point, a buffer of fewer than 2 points is unchanged, and the store has
the same channels as before. -/
theorem setState_between_drawing_modes (e : MouseMarkEffect) (newState : State)
    (hmode : (e.state = State.FREEHAND ∧ newState = State.ARROW)
      ∨ (e.state = State.ARROW ∧ newState = State.FREEHAND))
    (hwf : e.drawings.WF) :
    (setState e newState).state = newState
      ∧ (setState e newState).marks = e.marks ++ e.drawings.valuesAscending
      ∧ (setState e newState).marks = e.marks ++ e.drawings.values
      ∧ (setState e newState).drawings.keys = e.drawings.keys
      ∧ (setState e newState).drawings.WF
      ∧ (∀ (c : Int) (b : Mark) (q : QPointF), e.drawings.find? c = some b → 2 ≤ b.length →
          b.getLast? = some q → (setState e newState).drawings.find? c = some [q])
      ∧ (∀ (c : Int) (b : Mark), e.drawings.find? c = some b → b.length < 2 →
          (setState e newState).drawings.find? c = some b)
      ∧ (∀ c : Int, e.drawings.find? c = none →
          (setState e newState).drawings.find? c = none) := by
  have hne : e.state ≠ newState := by
    rcases hmode with ⟨h1, h2⟩ | ⟨h1, h2⟩ <;> rw [h1, h2] <;> decide
  have hn : newState ≠ State.NONE := by
    rcases hmode with ⟨_, h2⟩ | ⟨_, h2⟩ <;> rw [h2] <;> decide
  have hst : (setState e newState).state = newState := by
    rw [setState_drawing_mode e newState hne hn]
  have hm : (setState e newState).marks = e.marks ++ e.drawings.values := by
    rw [setState_drawing_mode e newState hne hn]
    exact flushAndContinue_marks _ _
  have hd : (setState e newState).drawings
      = e.drawings.map (fun en => (en.1, continueMark en.2)) := by
    rw [setState_drawing_mode e newState hne hn]
    exact flushAndContinue_drawings _ _
  refine ⟨hst, ?_, hm, ?_, ?_, ?_, ?_, ?_⟩
  · rw [hm, QMap.valuesAscending_eq_values _ hwf]
  · rw [hd]
    exact QMap.keys_map_values e.drawings continueMark
  · rw [hd]
    exact QMap.WF_map_values e.drawings continueMark hwf
  · intro c b q hb hlen hq
    rw [hd, QMap.find?_map_values e.drawings continueMark, hb]
    simp [continueMark, hlen, last_of_getLast? b q hq]
  · intro c b hb hlen
    rw [hd, QMap.find?_map_values e.drawings continueMark, hb]
    simp [continueMark, Nat.not_le.mpr hlen]
  · intro c hc
    rw [hd, QMap.find?_map_values e.drawings continueMark, hc]
    rfl

/-- Witness of C9's theorem: `sampleDrawing` switched from `FREEHAND` to
`ARROW`; both buffers are copied to the completed marks, channel 0 keeps its
last point (10,10) and the one-point buffer of channel 6 is unchanged. -/
theorem setState_between_drawing_modes_witness :
    sampleDrawing.state = State.FREEHAND ∧ sampleDrawing.drawings.WF
      ∧ (setState sampleDrawing State.ARROW).marks
          = [[⟨0, 0⟩, ⟨1, 1⟩], [⟨0, 0⟩, ⟨10, 0⟩, ⟨10, 10⟩], [⟨3, 3⟩]]
      ∧ (setState sampleDrawing State.ARROW).drawings.keys = [0, 6]
      ∧ (setState sampleDrawing State.ARROW).drawings.find? 0 = some [⟨10, 10⟩]
      ∧ (setState sampleDrawing State.ARROW).drawings.find? 6 = some [⟨3, 3⟩] :=
  have hwf : sampleDrawing.drawings.WF := by unfold QMap.WF; decide
  have h := setState_between_drawing_modes sampleDrawing State.ARROW (Or.inl ⟨rfl, rfl⟩) hwf
  ⟨rfl, hwf, h.2.2.1, h.2.2.2.1,
    h.2.2.2.2.2.1 0 [⟨0, 0⟩, ⟨10, 0⟩, ⟨10, 10⟩] ⟨10, 10⟩ rfl (by decide) rfl,
    h.2.2.2.2.2.2.1 6 [⟨3, 3⟩] rfl (by decide)⟩

/-- C10: from a mode other than `NONE`, `setState(NONE)` empties the store and
appends every old in-progress buffer to the completed marks, once each, in
ascending channel order; no buffer is kept for any channel. -/
theorem setState_none_flushes (e : MouseMarkEffect) (hs : e.state ≠ State.NONE)
    (hwf : e.drawings.WF) :
    (setState e State.NONE).state = State.NONE
      ∧ (setState e State.NONE).drawings = []
      ∧ (setState e State.NONE).marks = e.marks ++ e.drawings.valuesAscending
      ∧ (setState e State.NONE).marks = e.marks ++ e.drawings.values
      ∧ (∀ c : Int, (setState e State.NONE).drawings.contains c = false) := by
  have hm : (setState e State.NONE).marks = e.marks ++ e.drawings.values := by
    simp [setState, hs, endDrawings, addRepaintFull, foldl_append_marks]
  refine ⟨?_, ?_, ?_, hm, ?_⟩
  · simp [setState, hs, endDrawings, addRepaintFull]
  · simp [setState, hs, endDrawings, addRepaintFull]
  · rw [hm, QMap.valuesAscending_eq_values _ hwf]
  · intro c
    simp [setState, hs, endDrawings, addRepaintFull, QMap.contains]

/-- Witness of C10's theorem: `sampleDrawing` leaves `FREEHAND` for `NONE`; the
buffers of channels 0 and 6 follow the old completed mark, in that order, and
the store is empty. -/
theorem setState_none_flushes_witness :
    sampleDrawing.state ≠ State.NONE ∧ sampleDrawing.drawings.WF
      ∧ (setState sampleDrawing State.NONE).drawings = []
      ∧ (setState sampleDrawing State.NONE).marks
          = [[⟨0, 0⟩, ⟨1, 1⟩], [⟨0, 0⟩, ⟨10, 0⟩, ⟨10, 10⟩], [⟨3, 3⟩]] :=
  have hwf : sampleDrawing.drawings.WF := by unfold QMap.WF; decide
  have h := setState_none_flushes sampleDrawing (by decide) hwf
  ⟨by decide, hwf, h.2.1, h.2.2.2.1⟩

/-! ## Frame lemmas -/

theorem QMap.contains_eq_isSome_find? (m : QMap) (key : Int) :
    QMap.contains m key = (QMap.find? m key).isSome := by
  induction m with
  | nil => rfl
  | cons en rest ih =>
    simp only [QMap.contains, QMap.find?] at ih ⊢
    by_cases hk : (en.1 == key) = true
    · simp [List.find?_cons, hk]
    · simp only [Bool.not_eq_true] at hk
      simp only [List.any_cons, hk, Bool.false_or, List.find?_cons]
      exact ih

theorem QMap.find?_remove_self (m : QMap) (key : Int) :
    QMap.find? (QMap.remove m key) key = none := by
  induction m with
  | nil => rfl
  | cons en rest ih =>
    simp only [QMap.remove, QMap.find?] at ih ⊢
    by_cases hk : en.1 = key
    · simp only [List.filter_cons, hk, ne_eq, not_true_eq_false, decide_False]
      exact ih
    · have hb : (en.1 == key) = false := by simpa using hk
      simp only [List.filter_cons, ne_eq, hk, not_false_eq_true, decide_True, if_true,
        List.find?_cons, hb]
      exact ih

theorem QMap.find?_remove_of_ne (m : QMap) (key other : Int) (h : other ≠ key) :
    QMap.find? (QMap.remove m key) other = QMap.find? m other := by
  induction m with
  | nil => rfl
  | cons en rest ih =>
    obtain ⟨k, v⟩ := en
    simp only [QMap.remove, QMap.find?] at ih ⊢
    by_cases hk : k = key
    · subst hk
      have hb : (k == other) = false := by
        simp only [beq_eq_false_iff_ne, ne_eq]
        exact fun h1 => h h1.symm
      simp only [List.filter_cons, ne_eq, not_true_eq_false, decide_False,
        Bool.false_eq_true, if_false, List.find?_cons, hb]
      exact ih
    · simp only [List.filter_cons, ne_eq, hk, not_false_eq_true, decide_True, if_true,
        List.find?_cons]
      cases k == other
      · exact ih
      · rfl

theorem setState_state (e : MouseMarkEffect) (newState : State) :
    (setState e newState).state = newState := by
  unfold setState
  split_ifs with h
  · exact h
  · cases newState <;> rfl

theorem setState_marks (e : MouseMarkEffect) (newState : State) :
    (setState e newState).marks = e.marks
      ∨ (setState e newState).marks = e.marks ++ e.drawings.values := by
  unfold setState
  split_ifs with h
  · exact Or.inl rfl
  · right
    cases newState
    · simp [endDrawings, addRepaintFull, foldl_append_marks]
    · simp [flushAndContinue_marks]
    · simp [flushAndContinue_marks]

theorem processPoint_state (F : FloatOps) (e : MouseMarkEffect) (id : Int) (pos : QPointF) :
    (processPoint F e id pos).state = e.state := by
  unfold processPoint
  cases e.state
  · rfl
  · simp only []
    split_ifs <;> rfl
  · simp only []
    split_ifs <;> rfl

theorem processPoint_marks (F : FloatOps) (e : MouseMarkEffect) (id : Int) (pos : QPointF) :
    (processPoint F e id pos).marks = e.marks := by
  unfold processPoint
  cases e.state
  · rfl
  · simp only []
    split_ifs <;> rfl
  · simp only []
    split_ifs <;> rfl

theorem endDraw_marks (e : MouseMarkEffect) (channel : Int) :
    (endDraw e channel).marks = e.marks
      ∨ (endDraw e channel).marks = e.marks ++ [e.drawings.value channel] := by
  unfold endDraw
  split_ifs
  · exact Or.inl rfl
  · exact Or.inr rfl

/-! ## Selection of the mode -/

/-- C13: after a pointer update delivered while the screen is unlocked, the mode
is `FREEHAND` if the modifiers equal the configured freehand set, otherwise
`ARROW` if they equal the configured arrow set, otherwise `NONE`; the test is
equality of the modifier words, so a subset or superset of a configured set
that equals neither set selects `NONE`. -/
theorem slotMouseChanged_mode (F : FloatOps) (e : MouseMarkEffect) (pos : QPointF)
    (modifiers : Nat) :
    (slotMouseChanged F e false pos modifiers).state =
      (if modifiers = e.m_freedraw_modifiers then State.FREEHAND
       else if modifiers = e.m_arrowdraw_modifiers then State.ARROW
       else State.NONE) := by
  unfold slotMouseChanged
  simp only [Bool.false_eq_true, if_false]
  rw [processPoint_state]
  split_ifs <;> exact setState_state _ _

/-! ## End of a drawing -/

/-- C14: if channel `c` has the buffer `b`, `endDraw(c)` appends `b` as the last
completed mark, removes `c` from the store and leaves the buffer of every other
channel, the mode and the touch points unchanged; if `c` has no buffer,
`endDraw(c)` changes nothing. -/
theorem endDraw_channel (e : MouseMarkEffect) (c : Int) :
    (∀ b : Mark, e.drawings.find? c = some b →
        (endDraw e c).marks = e.marks ++ [b]
          ∧ (endDraw e c).drawings.contains c = false
          ∧ (endDraw e c).drawings.find? c = none
          ∧ (∀ other : Int, other ≠ c →
              (endDraw e c).drawings.find? other = e.drawings.find? other)
          ∧ (endDraw e c).state = e.state
          ∧ (endDraw e c).touchPoints = e.touchPoints)
      ∧ (e.drawings.find? c = none → endDraw e c = e) := by
  constructor
  · intro b hb
    have hc : e.drawings.contains c = true := by
      rw [QMap.contains_eq_isSome_find?, hb]; rfl
    have hv : e.drawings.value c = b := by simp [QMap.value, hb]
    have hd : (endDraw e c).drawings = e.drawings.remove c := by
      simp [endDraw, hc, addRepaintFull]
    refine ⟨?_, ?_, ?_, ?_, ?_, ?_⟩
    · simp [endDraw, hc, addRepaintFull, hv]
    · rw [hd, QMap.contains_eq_isSome_find?, QMap.find?_remove_self]; rfl
    · rw [hd, QMap.find?_remove_self]
    · intro other hne
      rw [hd, QMap.find?_remove_of_ne _ _ _ hne]
    · simp [endDraw, hc, addRepaintFull]
    · simp [endDraw, hc, addRepaintFull]
  · intro hn
    have hc : e.drawings.contains c = false := by
      rw [QMap.contains_eq_isSome_find?, hn]; rfl
    simp [endDraw, hc]

/-- Witness of C14's theorem: in `sampleDrawing` the stroke of channel 0 is
ended and channel 6 keeps its buffer; ending channel 3, which has no buffer,
changes nothing. -/
theorem endDraw_channel_witness :
    (endDraw sampleDrawing 0).marks
        = [[⟨0, 0⟩, ⟨1, 1⟩], [⟨0, 0⟩, ⟨10, 0⟩, ⟨10, 10⟩]]
      ∧ (endDraw sampleDrawing 0).drawings.find? 0 = none
      ∧ (endDraw sampleDrawing 0).drawings.find? 6 = some [⟨3, 3⟩]
      ∧ endDraw sampleDrawing 3 = sampleDrawing :=
  have h := (endDraw_channel sampleDrawing 0).1 [⟨0, 0⟩, ⟨10, 0⟩, ⟨10, 10⟩] rfl
  ⟨h.1, h.2.2.1, (h.2.2.2.1 6 (by decide)).trans rfl,
    (endDraw_channel sampleDrawing 3).2 rfl⟩

/-! ## Completed marks only grow -/

theorem setState_marks_grow (e : MouseMarkEffect) (newState : State) :
    e.marks <+: (setState e newState).marks := by
  rcases setState_marks e newState with h | h
  · exact ⟨[], by rw [h, List.append_nil]⟩
  · exact ⟨_, h.symm⟩

theorem endDraw_marks_grow (e : MouseMarkEffect) (channel : Int) :
    e.marks <+: (endDraw e channel).marks := by
  rcases endDraw_marks e channel with h | h
  · exact ⟨[], by rw [h, List.append_nil]⟩
  · exact ⟨_, h.symm⟩

theorem slotMouseChanged_marks_grow (F : FloatOps) (e : MouseMarkEffect) (locked : Bool)
    (pos : QPointF) (modifiers : Nat) :
    e.marks <+: (slotMouseChanged F e locked pos modifiers).marks := by
  unfold slotMouseChanged
  split_ifs
  · exact List.prefix_refl _
  all_goals
    rw [processPoint_marks]
    exact setState_marks_grow _ _

theorem touchDown_marks (F : FloatOps) (e : MouseMarkEffect) (id : Int) (pos : QPointF) :
    (touchDown F e id pos).2.marks = e.marks := by
  unfold touchDown
  split_ifs
  · rfl
  · rfl
  · exact processPoint_marks _ _ _ _

theorem touchMotion_marks (F : FloatOps) (e : MouseMarkEffect) (id : Int) (pos : QPointF) :
    (touchMotion F e id pos).2.marks = e.marks := by
  unfold touchMotion
  split_ifs
  · rfl
  · rfl
  · exact processPoint_marks _ _ _ _

theorem touchUp_marks_grow (e : MouseMarkEffect) (id : Int) :
    e.marks <+: (touchUp e id).2.marks := by
  unfold touchUp
  by_cases hg : (!e.touchDrawEnabled || decide (e.state = State.NONE)) = true
  · rw [if_pos hg]
    split_ifs <;> exact List.prefix_refl _
  · rw [if_neg hg]
    simp only []
    split_ifs <;> exact endDraw_marks_grow _ _

/-- C15: outside `clear` and `clearLast` the completed marks are append-only:
for `setState`, `processPoint`, `endDraw`, `endDrawings`, the pointer update,
`touchDown`, `touchMotion`, `touchUp` and the screen-lock notification, the list
of completed marks before the operation is an initial segment of the list after
it. -/
theorem marks_append_only (F : FloatOps) (e : MouseMarkEffect) :
    (∀ newState : State, e.marks <+: (setState e newState).marks)
      ∧ (∀ (c : Int) (p : QPointF), e.marks <+: (processPoint F e c p).marks)
      ∧ (∀ c : Int, e.marks <+: (endDraw e c).marks)
      ∧ e.marks <+: (endDrawings e).marks
      ∧ (∀ (locked : Bool) (p : QPointF) (m : Nat),
          e.marks <+: (slotMouseChanged F e locked p m).marks)
      ∧ (∀ (id : Int) (p : QPointF), e.marks <+: (touchDown F e id p).2.marks)
      ∧ (∀ (id : Int) (p : QPointF), e.marks <+: (touchMotion F e id p).2.marks)
      ∧ (∀ id : Int, e.marks <+: (touchUp e id).2.marks)
      ∧ (∀ locked : Bool, e.marks <+: (screenLockingChanged e locked).marks) := by
  refine ⟨setState_marks_grow e, ?_, endDraw_marks_grow e, ?_,
    slotMouseChanged_marks_grow F e, ?_, ?_, touchUp_marks_grow e, ?_⟩
  · intro c p
    rw [processPoint_marks]
  · simp only [endDrawings, addRepaintFull, foldl_append_marks]
    exact List.prefix_append _ _
  · intro id p
    rw [touchDown_marks]
  · intro id p
    rw [touchMotion_marks]
  · intro locked
    unfold screenLockingChanged
    split_ifs
    · exact List.prefix_refl _
    · exact List.prefix_refl _

/-! ## Screen lock -/

/-- C16 (counterexample): in `sampleDrawing` channel 0 holds the buffer
[(0,0),(10,0),(10,10)]; after `screenLockingChanged(true)` the buffer is still in
the store and has not been added to the completed marks. -/
theorem screenLockingChanged_counterexample :
    sampleDrawing.drawings.find? 0 = some [⟨0, 0⟩, ⟨10, 0⟩, ⟨10, 10⟩]
      ∧ ¬ ([⟨0, 0⟩, ⟨10, 0⟩, ⟨10, 10⟩] ∈ (screenLockingChanged sampleDrawing true).marks
            ∧ (screenLockingChanged sampleDrawing true).drawings.contains 0 = false) := by
  decide

/-- C16 (amended): a screen-lock notification finalizes nothing: the store, the
completed marks, the mode and the touch points are as before; the only effect
is a request for a full repaint when a completed mark or a buffer exists. -/
theorem screenLockingChanged_keeps_buffers (e : MouseMarkEffect) (locked : Bool) :
    (screenLockingChanged e locked).drawings = e.drawings
      ∧ (screenLockingChanged e locked).marks = e.marks
      ∧ (screenLockingChanged e locked).state = e.state
      ∧ (screenLockingChanged e locked).touchPoints = e.touchPoints
      ∧ (screenLockingChanged e locked).repaints =
          (if e.marks = [] ∧ e.drawings = [] then e.repaints
           else e.repaints ++ [Repaint.full]) := by
  unfold screenLockingChanged
  by_cases hm : e.marks = [] <;> by_cases hd : e.drawings = [] <;>
    simp [hm, hd, addRepaintFull]

/-! ## Duplicate touch down -/

/-- C17: a `touchDown` for a touch id that is already in the set of touch
points changes nothing (store, completed marks, touch points, mode); it returns
true when touch drawing is enabled and the mode is not `NONE`, false otherwise. -/
theorem touchDown_duplicate (F : FloatOps) (e : MouseMarkEffect) (id : Int) (p : QPointF)
    (h : id ∈ e.touchPoints) :
    (touchDown F e id p).2 = e
      ∧ (touchDown F e id p).2.drawings.find? (id + 1) = e.drawings.find? (id + 1)
      ∧ (touchDown F e id p).1 = (e.touchDrawEnabled && decide (e.state ≠ State.NONE)) := by
  have hc : QSet.contains e.touchPoints id = true := by simp [QSet.contains, h]
  have h2 : (touchDown F e id p).2 = e := by
    unfold touchDown
    split_ifs <;> rfl
  refine ⟨h2, by rw [h2], ?_⟩
  unfold touchDown
  by_cases ht : e.touchDrawEnabled = true <;> by_cases hs : e.state = State.NONE <;>
    simp [ht, hs, hc]

/-- Witness of C17's theorem: touch 5 is in the set of `sampleDrawing` and its
channel 6 holds a buffer; a second `touchDown(5)` returns true and leaves the
state as it is. -/
theorem touchDown_duplicate_witness :
    (5 : Int) ∈ sampleDrawing.touchPoints
      ∧ (touchDown sampleOps sampleDrawing 5 ⟨9, 9⟩).2 = sampleDrawing
      ∧ (touchDown sampleOps sampleDrawing 5 ⟨9, 9⟩).2.drawings.find? 6 = some [⟨3, 3⟩]
      ∧ (touchDown sampleOps sampleDrawing 5 ⟨9, 9⟩).1 = true :=
  have h := touchDown_duplicate sampleOps sampleDrawing 5 ⟨9, 9⟩ (by decide)
  ⟨by decide, h.1, h.2.1.trans rfl, h.2.2.trans rfl⟩

/-! ## The buffer of a channel under `processPoint` -/

theorem QMap.find?_insert_of_ne (m : QMap) (key other : Int) (v : Mark) (h : other ≠ key) :
    QMap.find? (QMap.insert m key v) other = QMap.find? m other := by
  have hb : (key == other) = false := by
    simp only [beq_eq_false_iff_ne, ne_eq]
    exact fun h1 => h h1.symm
  induction m with
  | nil => simp [QMap.insert, QMap.find?, List.find?_cons, hb]
  | cons en rest ih =>
    obtain ⟨k, w⟩ := en
    unfold QMap.insert
    split_ifs with h1 h2
    · simp [QMap.find?, List.find?_cons, hb]
    · subst h2
      simp [QMap.find?, List.find?_cons, hb]
    · simp only [QMap.find?] at ih ⊢
      simp only [List.find?_cons]
      cases k == other
      · exact ih
      · rfl

theorem QMap.find?_index_self (m : QMap) (key : Int) :
    QMap.find? (QMap.index m key) key = some (QMap.value m key) := by
  unfold QMap.index
  by_cases hc : QMap.contains m key = true
  · rw [if_pos hc]
    rw [QMap.contains_eq_isSome_find?] at hc
    obtain ⟨b, hb⟩ := Option.isSome_iff_exists.mp hc
    simp [QMap.value, hb]
  · rw [if_neg hc, QMap.find?_insert_self]
    simp only [Bool.not_eq_true] at hc
    rw [QMap.contains_eq_isSome_find?] at hc
    have hn : QMap.find? m key = none := by
      cases hf : QMap.find? m key with
      | none => rfl
      | some b => rw [hf] at hc; exact absurd hc (by simp)
    simp [QMap.value, hn]

theorem QMap.value_index (m : QMap) (key : Int) :
    QMap.value (QMap.index m key) key = QMap.value m key := by
  simp [QMap.value, QMap.find?_index_self]

theorem QMap.find?_index_of_ne (m : QMap) (key other : Int) (h : other ≠ key) :
    QMap.find? (QMap.index m key) other = QMap.find? m other := by
  unfold QMap.index
  split_ifs
  · rfl
  · exact QMap.find?_insert_of_ne m key other [] h

theorem QMap.value_of_find? (m : QMap) (key : Int) (b : Mark)
    (h : QMap.find? m key = some b) : QMap.value m key = b := by
  simp [QMap.value, h]

theorem QMap.value_of_not_contains (m : QMap) (key : Int)
    (h : QMap.contains m key = false) : QMap.value m key = [] := by
  rw [QMap.contains_eq_isSome_find?] at h
  cases hf : QMap.find? m key with
  | none => simp [QMap.value, hf]
  | some b => rw [hf] at h; exact absurd h (by simp)

theorem processPoint_freehand_find? (F : FloatOps) (e : MouseMarkEffect) (c : Int)
    (p : QPointF) (hs : e.state = State.FREEHAND) :
    (processPoint F e c p).drawings.find? c
      = some (freehandBuffer (e.drawings.value c) p) := by
  unfold processPoint
  rw [hs]
  simp only [QMap.value_index, freehandBuffer]
  split_ifs <;> simp [addRepaint, QMap.find?_insert_self]

theorem processPoint_arrow_find? (F : FloatOps) (e : MouseMarkEffect) (c : Int)
    (p : QPointF) (hs : e.state = State.ARROW) :
    (processPoint F e c p).drawings.find? c
      = some (arrowBuffer F (e.drawings.value c) p) := by
  unfold processPoint
  rw [hs]
  simp only [QMap.value_index, arrowBuffer]
  split_ifs <;> simp [addRepaintFull, QMap.find?_insert_self, QMap.find?_index_self]

theorem processPoint_find?_of_ne (F : FloatOps) (e : MouseMarkEffect) (c other : Int)
    (p : QPointF) (h : other ≠ c) :
    (processPoint F e c p).drawings.find? other = e.drawings.find? other := by
  unfold processPoint
  cases e.state
  · exact QMap.find?_index_of_ne _ _ _ h
  · simp only []
    split_ifs <;>
      simp [addRepaint, QMap.find?_insert_of_ne _ _ _ _ h, QMap.find?_index_of_ne _ _ _ h]
  · simp only []
    split_ifs <;>
      simp [addRepaintFull, QMap.find?_insert_of_ne _ _ _ _ h, QMap.find?_index_of_ne _ _ _ h]

/-! ## Sequences of points in mode `FREEHAND` -/

theorem last_concat (init : Mark) (q : QPointF) : last (init ++ [q]) = q := by
  simp [last]

theorem freehandBuffer_concat (init : Mark) (q p : QPointF) :
    freehandBuffer (init ++ [q]) p
      = if QPointF.equal q p then init ++ [q] else (init ++ [q]) ++ [p] := by
  simp [freehandBuffer, last_concat]

theorem foldl_freehandBuffer (ps : List QPointF) (init : Mark) (q : QPointF) :
    ps.foldl freehandBuffer (init ++ [q]) = init ++ q :: keptAfter q ps := by
  induction ps generalizing init q with
  | nil => simp [keptAfter]
  | cons p ps ih =>
    rw [List.foldl_cons, freehandBuffer_concat]
    by_cases h : QPointF.equal q p = true
    · rw [if_pos h, ih]
      simp [keptAfter, h]
    · rw [if_neg h, ih]
      simp [keptAfter, h]

theorem coord_eq_of_fuzzy_of_int (x y : ℤ) (hx : |x| < 1000000000000)
    (h : (if (x : ℚ) = 0 ∨ (y : ℚ) = 0 then qFuzzyIsNull ((x : ℚ) - y)
          else qFuzzyCompare (x : ℚ) y) = true) : x = y := by
  by_contra hne
  have h1 : (1 : ℚ) ≤ |(x : ℚ) - y| := by
    have h2 : (1 : ℤ) ≤ |x - y| := Int.one_le_abs (sub_ne_zero.mpr hne)
    have h3 : ((1 : ℤ) : ℚ) ≤ ((|x - y| : ℤ) : ℚ) := by exact_mod_cast h2
    simpa using h3
  split_ifs at h
  · simp only [qFuzzyIsNull, decide_eq_true_eq] at h
    have : (1 : ℚ) / 1000000000000 < 1 := by norm_num
    linarith
  · simp only [qFuzzyCompare, decide_eq_true_eq] at h
    have h4 : min |(x : ℚ)| |(y : ℚ)| ≤ |(x : ℚ)| := min_le_left _ _
    have h5 : |(x : ℚ)| < 1000000000000 := by
      have h6 : ((|x| : ℤ) : ℚ) < ((1000000000000 : ℤ) : ℚ) := by exact_mod_cast hx
      simpa using h6
    nlinarith

/-- Between points with whole-number coordinates, the first with coordinates
below 10^12 in absolute value, `QPointF::operator==` holds only when the two
points are identical. -/
theorem QPointF.eq_of_equal_of_int (a b c d : ℤ) (ha : |a| < 1000000000000)
    (hb : |b| < 1000000000000)
    (h : QPointF.equal ⟨a, b⟩ ⟨c, d⟩ = true) : (⟨a, b⟩ : QPointF) = ⟨c, d⟩ := by
  simp only [QPointF.equal, Bool.and_eq_true] at h
  have h1 := coord_eq_of_fuzzy_of_int a c ha h.1
  have h2 := coord_eq_of_fuzzy_of_int b d hb h.2
  rw [h1, h2]

theorem keptAfter_eq_collapseRuns (ps : List QPointF) (q : QPointF)
    (h : ∀ a ∈ q :: ps, ∀ b ∈ q :: ps, QPointF.equal a b = true → a = b) :
    q :: keptAfter q ps = collapseRuns (q :: ps) := by
  induction ps generalizing q with
  | nil => rfl
  | cons p ps ih =>
    have hps : ∀ a ∈ p :: ps, ∀ b ∈ p :: ps, QPointF.equal a b = true → a = b :=
      fun a ha b hb => h a (List.mem_cons_of_mem _ ha) b (List.mem_cons_of_mem _ hb)
    by_cases hqp : q = p
    · subst hqp
      simp only [keptAfter, QPointF.equal_refl, if_true, collapseRuns]
      exact ih q hps
    · have hne : ¬ QPointF.equal q p = true := fun he =>
        hqp (h q (List.mem_cons_self _ _) p (List.mem_cons_of_mem _ (List.mem_cons_self _ _)) he)
      simp only [keptAfter, hne, collapseRuns, hqp, if_false, Bool.false_eq_true]
      rw [ih p hps]

theorem kept_eq_collapseRuns (ps : List QPointF)
    (h : ∀ a ∈ ps, ∀ b ∈ ps, QPointF.equal a b = true → a = b) :
    kept ps = collapseRuns ps := by
  cases ps with
  | nil => rfl
  | cons p rest => exact keptAfter_eq_collapseRuns rest p h

theorem deliverPoints_state (F : FloatOps) (e : MouseMarkEffect) (c : Int)
    (ps : List QPointF) : (deliverPoints F e c ps).state = e.state := by
  induction ps generalizing e with
  | nil => rfl
  | cons p ps ih =>
    simp only [deliverPoints, List.foldl_cons] at ih ⊢
    rw [ih, processPoint_state]

theorem deliverPoints_find?_freehand (F : FloatOps) (ps : List QPointF) (e : MouseMarkEffect)
    (c : Int) (p : QPointF) (hs : e.state = State.FREEHAND) :
    (deliverPoints F e c (p :: ps)).drawings.find? c
      = some (ps.foldl freehandBuffer (freehandBuffer (e.drawings.value c) p)) := by
  induction ps generalizing e p with
  | nil => exact processPoint_freehand_find? F e c p hs
  | cons q ps ih =>
    have hs1 : (processPoint F e c p).state = State.FREEHAND := by
      rw [processPoint_state, hs]
    have h1 := ih (processPoint F e c p) q hs1
    rw [QMap.value_of_find? _ _ _ (processPoint_freehand_find? F e c p hs)] at h1
    exact h1

/-- C11 (counterexample): in mode `FREEHAND`, the distinct points (0,0) and
(2^-44, 0) delivered to a channel without a buffer leave the single point
(0,0), not the two points that collapsing consecutive duplicates gives; and of
the points (1,0), (1 + 2^-41, 0), (1 + 3·2^-41, 0), each `==` to the next, the
first and the third are kept. -/
theorem deliverPoints_freehand_counterexample :
    (deliverPoints sampleOps { sampleInitial with state := State.FREEHAND } 3
        [⟨0, 0⟩, ⟨1 / 17592186044416, 0⟩]).drawings.find? 3 = some [⟨0, 0⟩]
      ∧ collapseRuns [⟨0, 0⟩, ⟨1 / 17592186044416, 0⟩] = [⟨0, 0⟩, ⟨1 / 17592186044416, 0⟩]
      ∧ ¬ ((deliverPoints sampleOps { sampleInitial with state := State.FREEHAND } 3
            [⟨0, 0⟩, ⟨1 / 17592186044416, 0⟩]).drawings.find? 3
          = some (collapseRuns [⟨0, 0⟩, ⟨1 / 17592186044416, 0⟩]))
      ∧ QPointF.equal ⟨1, 0⟩ ⟨1 + 1 / 2199023255552, 0⟩ = true
      ∧ QPointF.equal ⟨1 + 1 / 2199023255552, 0⟩ ⟨1 + 3 / 2199023255552, 0⟩ = true
      ∧ (deliverPoints sampleOps { sampleInitial with state := State.FREEHAND } 3
          [⟨1, 0⟩, ⟨1 + 1 / 2199023255552, 0⟩, ⟨1 + 3 / 2199023255552, 0⟩]).drawings.find? 3
        = some [⟨1, 0⟩, ⟨1 + 3 / 2199023255552, 0⟩] := by
  refine ⟨by decide!, by decide!, by decide!, by decide!, by decide!, by decide!⟩

/-- C11 (amended): in mode `FREEHAND`, after a non-empty sequence of points has
been delivered by `processPoint` to a channel that had no buffer, the buffer is
the first point followed by every later point that `QPointF::operator==` does
not find equal to the point kept before it; when `==` holds only between
identical points of the sequence, this is the sequence with every run of equal
adjacent points kept once; and in every `FREEHAND` state a point that is `==` to
the last point of the buffer leaves the buffer as it is. -/
theorem deliverPoints_freehand (F : FloatOps) (e : MouseMarkEffect) (c : Int)
    (ps : List QPointF) (hs : e.state = State.FREEHAND)
    (hc : e.drawings.contains c = false) (hps : ps ≠ []) :
    (deliverPoints F e c ps).drawings.find? c = some (kept ps)
      ∧ ((∀ a ∈ ps, ∀ b ∈ ps, QPointF.equal a b = true → a = b) →
          (deliverPoints F e c ps).drawings.find? c = some (collapseRuns ps))
      ∧ (∀ (e1 : MouseMarkEffect) (b : Mark) (q p : QPointF),
          e1.state = State.FREEHAND → e1.drawings.find? c = some b → b.getLast? = some q →
          QPointF.equal q p = true →
          (processPoint F e1 c p).drawings.find? c = some b) := by
  have h1 : (deliverPoints F e c ps).drawings.find? c = some (kept ps) := by
    obtain ⟨p, rest, rfl⟩ := List.exists_cons_of_ne_nil hps
    rw [deliverPoints_find?_freehand F rest e c p hs, QMap.value_of_not_contains _ _ hc]
    have h0 : freehandBuffer [] p = [] ++ [p] := by
      simp [freehandBuffer, last, QPointF.equal_refl]
    rw [h0, foldl_freehandBuffer]
    rfl
  refine ⟨h1, ?_, ?_⟩
  · intro hagree
    rw [h1, kept_eq_collapseRuns ps hagree]
  · intro e1 b q p hs1 hb hq hqp
    rw [processPoint_freehand_find? F e1 c p hs1, QMap.value_of_find? _ _ _ hb]
    have hl : last b = q := last_of_getLast? b q hq
    have he : b.isEmpty = false := by
      cases b with
      | nil => exact absurd hq (by simp)
      | cons a l => rfl
    simp [freehandBuffer, he, hl, hqp]

/-- Witness of C11's amended theorem: the points (0,0), (0,0), (1,0), (1,0),
(0,0), on which `==` and identity agree, delivered to channel 3 leave the buffer
[(0,0), (1,0), (0,0)]. -/
theorem deliverPoints_freehand_witness :
    ({ sampleInitial with state := State.FREEHAND } : MouseMarkEffect).state = State.FREEHAND
      ∧ (deliverPoints sampleOps { sampleInitial with state := State.FREEHAND } 3
          [⟨0, 0⟩, ⟨0, 0⟩, ⟨1, 0⟩, ⟨1, 0⟩, ⟨0, 0⟩]).drawings.find? 3
        = some [⟨0, 0⟩, ⟨1, 0⟩, ⟨0, 0⟩] :=
  ⟨rfl, ((deliverPoints_freehand sampleOps { sampleInitial with state := State.FREEHAND } 3
      [⟨0, 0⟩, ⟨0, 0⟩, ⟨1, 0⟩, ⟨1, 0⟩, ⟨0, 0⟩] rfl rfl (by decide)).2.1
        (by decide!)).trans (by decide)⟩

/-! ## Sequences of points in mode `ARROW` -/

theorem last_createArrow (F : FloatOps) (head tail : QPointF) :
    last (createArrow F head tail) = head := by
  simp [createArrow, last]

theorem first_createArrow (F : FloatOps) (head tail : QPointF) :
    first (createArrow F head tail) = tail := by
  simp [createArrow, first]

theorem arrowBuffer_createArrow (F : FloatOps) (q p0 p : QPointF) :
    arrowBuffer F (createArrow F q p0) p
      = if QPointF.equal q p then createArrow F q p0 else createArrow F p p0 := by
  unfold arrowBuffer
  have hlen : ¬ (createArrow F q p0).length < 1 := by simp [createArrow]
  rw [if_neg hlen, last_createArrow, first_createArrow]
  by_cases h : QPointF.equal q p = true <;> simp [h]

theorem foldl_arrowBuffer_createArrow (F : FloatOps) (ps : List QPointF) (q p0 : QPointF) :
    ps.foldl (arrowBuffer F) (createArrow F q p0)
      = createArrow F ((keptAfter q ps).getLastD q) p0 := by
  induction ps generalizing q with
  | nil => rfl
  | cons p ps ih =>
    rw [List.foldl_cons, arrowBuffer_createArrow]
    by_cases h : QPointF.equal q p = true
    · rw [if_pos h, ih]
      simp [keptAfter, h]
    · rw [if_neg h, ih]
      simp only [keptAfter, h, if_false, Bool.false_eq_true]
      cases keptAfter p ps <;> rfl

theorem arrowBuffer_singleton (F : FloatOps) (p0 p : QPointF) :
    arrowBuffer F [p0] p = if QPointF.equal p0 p then [p0] else createArrow F p p0 := by
  unfold arrowBuffer
  by_cases h : QPointF.equal p0 p = true <;> simp [last, first, h]

theorem foldl_arrowBuffer_singleton (F : FloatOps) (ps : List QPointF) (p0 : QPointF) :
    ps.foldl (arrowBuffer F) [p0]
      = if keptAfter p0 ps = [] then [p0]
        else createArrow F ((keptAfter p0 ps).getLastD p0) p0 := by
  induction ps with
  | nil => simp [keptAfter]
  | cons p ps ih =>
    rw [List.foldl_cons, arrowBuffer_singleton]
    by_cases h : QPointF.equal p0 p = true
    · rw [if_pos h, ih]
      simp [keptAfter, h]
    · rw [if_neg h, foldl_arrowBuffer_createArrow]
      simp only [keptAfter, h, if_false, Bool.false_eq_true]
      have hne : ¬ (p :: keptAfter p ps = []) := by simp
      rw [if_neg hne]
      cases keptAfter p ps <;> rfl

theorem keptAfter_of_agree (ps : List QPointF) (q : QPointF)
    (h : ∀ a ∈ q :: ps, ∀ b ∈ q :: ps, QPointF.equal a b = true → a = b) :
    (keptAfter q ps = [] ↔ ∀ p ∈ ps, p = q)
      ∧ (keptAfter q ps).getLastD q = ps.getLastD q := by
  induction ps generalizing q with
  | nil => simp [keptAfter]
  | cons p ps ih =>
    have hps : ∀ a ∈ p :: ps, ∀ b ∈ p :: ps, QPointF.equal a b = true → a = b :=
      fun a ha b hb => h a (List.mem_cons_of_mem _ ha) b (List.mem_cons_of_mem _ hb)
    by_cases hqp : q = p
    · subst hqp
      have hq := ih q hps
      simp only [keptAfter, QPointF.equal_refl, if_true, List.mem_cons, forall_eq_or_imp,
        true_and]
      refine ⟨hq.1, ?_⟩
      rw [hq.2]
      cases ps <;> rfl
    · have hne : ¬ QPointF.equal q p = true := fun he =>
        hqp (h q (List.mem_cons_self _ _) p (List.mem_cons_of_mem _ (List.mem_cons_self _ _)) he)
      have hp := ih p hps
      simp only [keptAfter, hne, if_false, Bool.false_eq_true]
      constructor
      · constructor
        · intro h0
          exact absurd h0 (by simp)
        · intro hall
          exact absurd (hall p (List.mem_cons_self _ _)).symm hqp
      · have e1 : (p :: keptAfter p ps).getLastD q = (keptAfter p ps).getLastD p := by
          cases keptAfter p ps <;> rfl
        have e2 : (p :: ps).getLastD q = ps.getLastD p := by cases ps <;> rfl
        rw [e1, e2, hp.2]

theorem deliverPoints_find?_arrow (F : FloatOps) (ps : List QPointF) (e : MouseMarkEffect)
    (c : Int) (p : QPointF) (hs : e.state = State.ARROW) :
    (deliverPoints F e c (p :: ps)).drawings.find? c
      = some (ps.foldl (arrowBuffer F) (arrowBuffer F (e.drawings.value c) p)) := by
  induction ps generalizing e p with
  | nil => exact processPoint_arrow_find? F e c p hs
  | cons q ps ih =>
    have hs1 : (processPoint F e c p).state = State.ARROW := by
      rw [processPoint_state, hs]
    have h1 := ih (processPoint F e c p) q hs1
    rw [QMap.value_of_find? _ _ _ (processPoint_arrow_find? F e c p hs)] at h1
    exact h1

/-- C12 (counterexample): in mode `ARROW`, the points (0,0) and (2^-44, 0)
delivered to a channel without a buffer leave the single point (0,0), although
the second point is not (0,0); and after (0,0), (10,0), (10 + 2^-40, 0) the head
of the arrow is (10,0), not the last point delivered. -/
theorem deliverPoints_arrow_counterexample :
    (deliverPoints sampleOps { sampleInitial with state := State.ARROW } 3
        [⟨0, 0⟩, ⟨1 / 17592186044416, 0⟩]).drawings.find? 3 = some [⟨0, 0⟩]
      ∧ ¬ (∀ p ∈ [(⟨1 / 17592186044416, 0⟩ : QPointF)], p = ⟨0, 0⟩)
      ∧ ¬ ((deliverPoints sampleOps { sampleInitial with state := State.ARROW } 3
            [⟨0, 0⟩, ⟨1 / 17592186044416, 0⟩]).drawings.find? 3
          = some (createArrow sampleOps ⟨1 / 17592186044416, 0⟩ ⟨0, 0⟩))
      ∧ (deliverPoints sampleOps { sampleInitial with state := State.ARROW } 3
          [⟨0, 0⟩, ⟨10, 0⟩, ⟨10 + 1 / 1099511627776, 0⟩]).drawings.find? 3
        = some (createArrow sampleOps ⟨10, 0⟩ ⟨0, 0⟩)
      ∧ createArrow sampleOps ⟨10, 0⟩ ⟨0, 0⟩
        ≠ createArrow sampleOps ⟨10 + 1 / 1099511627776, 0⟩ ⟨0, 0⟩ := by
  refine ⟨by decide!, by decide!, by decide!, by decide!, by decide!⟩

/-- C12 (amended): in mode `ARROW`, after the points p0, ..., pn have been
delivered by `processPoint` to a channel that had no buffer, the buffer is [p0]
if every point was `==` (by `QPointF::operator==`) to p0, and otherwise it is
`createArrow(h, p0)` where h is the last point that was not `==` to the head
before it; the tail is p0 in every case. When `==` holds only between identical
points of the sequence, the buffer is [p0] if all the points are p0 and
`createArrow(pn, p0)` otherwise. -/
theorem deliverPoints_arrow (F : FloatOps) (e : MouseMarkEffect) (c : Int) (p0 : QPointF)
    (rest : List QPointF) (hs : e.state = State.ARROW)
    (hc : e.drawings.contains c = false) :
    (deliverPoints F e c (p0 :: rest)).drawings.find? c
        = some (if keptAfter p0 rest = [] then [p0]
                else createArrow F ((keptAfter p0 rest).getLastD p0) p0)
      ∧ (∃ b : Mark, (deliverPoints F e c (p0 :: rest)).drawings.find? c = some b
          ∧ first b = p0)
      ∧ ((∀ a ∈ p0 :: rest, ∀ b ∈ p0 :: rest, QPointF.equal a b = true → a = b) →
          (deliverPoints F e c (p0 :: rest)).drawings.find? c
            = some (if ∀ p ∈ rest, p = p0 then [p0]
                    else createArrow F ((p0 :: rest).getLast (List.cons_ne_nil p0 rest)) p0)) := by
  have h1 : (deliverPoints F e c (p0 :: rest)).drawings.find? c
      = some (if keptAfter p0 rest = [] then [p0]
              else createArrow F ((keptAfter p0 rest).getLastD p0) p0) := by
    rw [deliverPoints_find?_arrow F rest e c p0 hs, QMap.value_of_not_contains _ _ hc]
    have h0 : arrowBuffer F [] p0 = [p0] := by simp [arrowBuffer]
    rw [h0, foldl_arrowBuffer_singleton]
  refine ⟨h1, ?_, ?_⟩
  · refine ⟨_, h1, ?_⟩
    split_ifs
    · rfl
    · exact first_createArrow F _ _
  · intro hagree
    obtain ⟨hk1, hk2⟩ := keptAfter_of_agree rest p0 hagree
    rw [h1, hk2, List.getLast_eq_getLastD]
    by_cases hall : ∀ p ∈ rest, p = p0
    · rw [if_pos (hk1.mpr hall), if_pos hall]
    · rw [if_neg (fun h0 => hall (hk1.mp h0)), if_neg hall]

/-- Witness of C12's amended theorem: the points (0,0), (0,0), (10,0), (10,10)
delivered to channel 3 leave the arrow from (0,0) to (10,10), and the points
(0,0), (0,0) leave the single point (0,0). -/
theorem deliverPoints_arrow_witness :
    ({ sampleInitial with state := State.ARROW } : MouseMarkEffect).state = State.ARROW
      ∧ (deliverPoints sampleOps { sampleInitial with state := State.ARROW } 3
          [⟨0, 0⟩, ⟨0, 0⟩, ⟨10, 0⟩, ⟨10, 10⟩]).drawings.find? 3
        = some (createArrow sampleOps ⟨10, 10⟩ ⟨0, 0⟩)
      ∧ (deliverPoints sampleOps { sampleInitial with state := State.ARROW } 3
          [⟨0, 0⟩, ⟨0, 0⟩]).drawings.find? 3 = some [⟨0, 0⟩] :=
  ⟨rfl,
   ((deliverPoints_arrow sampleOps { sampleInitial with state := State.ARROW } 3 ⟨0, 0⟩
      [⟨0, 0⟩, ⟨10, 0⟩, ⟨10, 10⟩] rfl rfl).2.2 (by decide!)).trans (by simp),
   ((deliverPoints_arrow sampleOps { sampleInitial with state := State.ARROW } 3 ⟨0, 0⟩
      [⟨0, 0⟩] rfl rfl).2.2 (by decide!)).trans (by simp)⟩

/-! ## The repaint request of a freehand segment -/

theorem processPoint_freehand_repaints (F : FloatOps) (e : MouseMarkEffect) (c : Int)
    (p q : QPointF) (b : Mark) (hs : e.state = State.FREEHAND)
    (hb : e.drawings.find? c = some b) (hq : b.getLast? = some q)
    (hne : QPointF.equal q p = false) :
    (processPoint F e c p).repaints = e.repaints ++
      [Repaint.rect ((QRect.mk4 (truncToInt (min p.x q.x)) (truncToInt (min p.y q.y))
        (truncToInt (max p.x q.x)) (truncToInt (max p.y q.y))).adjust
        (-e.width) (-e.width) e.width e.width)] := by
  have hl : last b = q := last_of_getLast? b q hq
  have he : b.isEmpty = false := by
    cases b with
    | nil => exact absurd hq (by simp)
    | cons a l => rfl
  unfold processPoint
  rw [hs]
  simp only [QMap.value_index, QMap.value_of_find? _ _ _ hb, he, Bool.false_eq_true, if_false,
    hl, hne]
  rfl

/-- C18: in mode `FREEHAND`, when `processPoint` appends `p` to a buffer whose
last point `q` differs from `p` (by `QPointF::operator!=`, as distinct points
with whole-number screen coordinates do), the rectangle it asks to repaint is
`QRect(min x, min y, max x, max y)` outset by the line width: the maxima are
passed as width and height. Its top-left corner is that of the bounding box of
the segment, but its right and bottom edges lie beyond those of the bounding
box by min x and min y. -/
theorem processPoint_freehand_repaint_rect (F : FloatOps) (e : MouseMarkEffect) (c : Int)
    (p q : QPointF) (b : Mark) (hs : e.state = State.FREEHAND)
    (hb : e.drawings.find? c = some b) (hq : b.getLast? = some q)
    (hne : QPointF.equal q p = false) :
    (processPoint F e c p).drawings.find? c = some (b ++ [p])
      ∧ ∃ r : QRect, (processPoint F e c p).repaints = e.repaints ++ [Repaint.rect r]
          ∧ r = (QRect.mk4 (truncToInt (min p.x q.x)) (truncToInt (min p.y q.y))
              (truncToInt (max p.x q.x)) (truncToInt (max p.y q.y))).adjust
              (-e.width) (-e.width) e.width e.width
          ∧ r.x1 = (boundingRepaint p q e.width).x1
          ∧ r.y1 = (boundingRepaint p q e.width).y1
          ∧ r.x2 = (boundingRepaint p q e.width).x2 + truncToInt (min p.x q.x)
          ∧ r.y2 = (boundingRepaint p q e.width).y2 + truncToInt (min p.y q.y) := by
  have hl : last b = q := last_of_getLast? b q hq
  have he : b.isEmpty = false := by
    cases b with
    | nil => exact absurd hq (by simp)
    | cons a l => rfl
  constructor
  · rw [processPoint_freehand_find? F e c p hs, QMap.value_of_find? _ _ _ hb]
    simp [freehandBuffer, he, hl, hne]
  · refine ⟨_, processPoint_freehand_repaints F e c p q b hs hb hq hne, rfl, ?_, ?_, ?_, ?_⟩ <;>
      simp only [boundingRepaint, QRect.mk4, QRect.adjust] <;> ring

/-- Witness of C18's theorem: line width 3, channel 0 holds [(10,10)] and
(20,30) is delivered. The code requests the rectangle with corners (7,7) and
(32,42); the bounding box of the segment outset by 3 has corners (7,7) and
(22,32). -/
theorem processPoint_freehand_repaint_rect_witness :
    (processPoint sampleOps { sampleInitial with
          state := State.FREEHAND, drawings := [(0, [⟨10, 10⟩])] } 0 ⟨20, 30⟩).repaints
        = [Repaint.rect ⟨7, 7, 32, 42⟩]
      ∧ boundingRepaint ⟨20, 30⟩ ⟨10, 10⟩ 3 = ⟨7, 7, 22, 32⟩
      ∧ (∃ r : QRect, (processPoint sampleOps { sampleInitial with
            state := State.FREEHAND, drawings := [(0, [⟨10, 10⟩])] } 0 ⟨20, 30⟩).repaints
            = [Repaint.rect r] ∧ r ≠ boundingRepaint ⟨20, 30⟩ ⟨10, 10⟩ 3) :=
  have h := processPoint_freehand_repaint_rect sampleOps { sampleInitial with
      state := State.FREEHAND, drawings := [(0, [⟨10, 10⟩])] } 0 ⟨20, 30⟩ ⟨10, 10⟩
      [⟨10, 10⟩] rfl rfl rfl (by decide!)
  ⟨by decide!, by decide,
    match h.2 with
    | ⟨r, hr, hdef, _⟩ => ⟨r, hr, by rw [hdef]; decide⟩⟩

/-! ## The last point of a buffer -/

theorem getLast?_of_last (b : Mark) (hne : b ≠ []) : b.getLast? = some (last b) := by
  cases b with
  | nil => exact absurd rfl hne
  | cons a l => simp [last, List.getLast?_eq_getLast]

theorem QMap.find?_of_value_ne_nil (m : QMap) (key : Int) (h : QMap.value m key ≠ []) :
    QMap.find? m key = some (QMap.value m key) := by
  cases hf : QMap.find? m key with
  | none => simp [QMap.value, hf] at h
  | some b => simp [QMap.value, hf]

theorem freehandBuffer_last (v : Mark) (p : QPointF) :
    ∃ q : QPointF, (freehandBuffer v p).getLast? = some q ∧ QPointF.equal q p = true
      ∧ (q = p ∨ (freehandBuffer v p = v ∧ v ≠ [])) := by
  unfold freehandBuffer
  cases v with
  | nil =>
    refine ⟨p, ?_, QPointF.equal_refl p, Or.inl rfl⟩
    simp [last, QPointF.equal_refl]
  | cons a l =>
    simp only [List.isEmpty_cons, Bool.false_eq_true, if_false]
    by_cases h : QPointF.equal (last (a :: l)) p = true
    · rw [if_pos h]
      exact ⟨last (a :: l), getLast?_of_last _ (by simp), h, Or.inr ⟨rfl, by simp⟩⟩
    · rw [if_neg h]
      refine ⟨p, ?_, QPointF.equal_refl p, Or.inl rfl⟩
      rw [List.getLast?_append]
      rfl

theorem arrowBuffer_last (F : FloatOps) (v : Mark) (p : QPointF) :
    ∃ q : QPointF, (arrowBuffer F v p).getLast? = some q ∧ QPointF.equal q p = true
      ∧ (q = p ∨ (arrowBuffer F v p = v ∧ v ≠ [])) := by
  unfold arrowBuffer
  cases v with
  | nil => exact ⟨p, by simp, QPointF.equal_refl p, Or.inl rfl⟩
  | cons a l =>
    have hlen : ¬ (a :: l).length < 1 := by simp
    rw [if_neg hlen]
    by_cases h : QPointF.equal (last (a :: l)) p = true
    · have hc : ¬ ((!QPointF.equal (last (a :: l)) p) = true) := by simp [h]
      rw [if_neg hc]
      exact ⟨last (a :: l), getLast?_of_last _ (by simp), h, Or.inr ⟨rfl, by simp⟩⟩
    · have hc : (!QPointF.equal (last (a :: l)) p) = true := by simp [h]
      rw [if_pos hc]
      exact ⟨p, by simp [createArrow], QPointF.equal_refl p, Or.inl rfl⟩

/-- C19 (counterexample): in mode `FREEHAND` (and likewise in mode `ARROW`),
channel 0 holds [(0,0)] and the point (2^-44, 0) is delivered: afterwards the
buffer is still [(0,0)], so its last point is not the point delivered. -/
theorem processPoint_last_point_counterexample :
    (processPoint sampleOps { sampleInitial with
        state := State.FREEHAND, drawings := [(0, [⟨0, 0⟩])] } 0
        ⟨1 / 17592186044416, 0⟩).drawings.find? 0 = some [⟨0, 0⟩]
      ∧ (processPoint sampleOps { sampleInitial with
        state := State.ARROW, drawings := [(0, [⟨0, 0⟩])] } 0
        ⟨1 / 17592186044416, 0⟩).drawings.find? 0 = some [⟨0, 0⟩]
      ∧ ¬ ([(⟨0, 0⟩ : QPointF)].getLast? = some ⟨1 / 17592186044416, 0⟩)
      ∧ ¬ ∃ b : Mark, (processPoint sampleOps { sampleInitial with
            state := State.FREEHAND, drawings := [(0, [⟨0, 0⟩])] } 0
            ⟨1 / 17592186044416, 0⟩).drawings.find? 0 = some b
          ∧ b ≠ [] ∧ b.getLast? = some ⟨1 / 17592186044416, 0⟩ := by
  have h1 : (processPoint sampleOps { sampleInitial with
        state := State.FREEHAND, drawings := [(0, [⟨0, 0⟩])] } 0
        ⟨1 / 17592186044416, 0⟩).drawings.find? 0 = some [⟨0, 0⟩] := by decide!
  have h3 : ¬ ([(⟨0, 0⟩ : QPointF)].getLast? = some ⟨1 / 17592186044416, 0⟩) := by decide!
  refine ⟨h1, by decide!, h3, ?_⟩
  rintro ⟨b, hb, -, hl⟩
  rw [h1] at hb
  have hb1 : [(⟨0, 0⟩ : QPointF)] = b := Option.some.inj hb
  rw [← hb1] at hl
  exact h3 hl

/-- C19 (amended): in mode `FREEHAND` or `ARROW`, after `processPoint(c, p)`
channel `c` has a non-empty buffer whose last point is `==` to `p` (by
`QPointF::operator==`): it is `p` itself, or else the buffer is the one the
channel had before; the buffer of every other channel is as before. -/
theorem processPoint_last_point (F : FloatOps) (e : MouseMarkEffect) (c : Int) (p : QPointF)
    (hs : e.state = State.FREEHAND ∨ e.state = State.ARROW) :
    (∃ (b : Mark) (q : QPointF), (processPoint F e c p).drawings.find? c = some b
        ∧ b ≠ [] ∧ b.getLast? = some q ∧ QPointF.equal q p = true
        ∧ (q = p ∨ e.drawings.find? c = some b))
      ∧ (∀ other : Int, other ≠ c →
          (processPoint F e c p).drawings.find? other = e.drawings.find? other) := by
  constructor
  · rcases hs with hs | hs
    · obtain ⟨q, hq, heq, hcase⟩ := freehandBuffer_last (e.drawings.value c) p
      refine ⟨_, q, processPoint_freehand_find? F e c p hs, ?_, hq, heq, ?_⟩
      · intro h0
        rw [h0] at hq
        exact absurd hq (by simp)
      · rcases hcase with h1 | ⟨h1, h2⟩
        · exact Or.inl h1
        · right
          rw [h1]
          exact QMap.find?_of_value_ne_nil _ _ h2
    · obtain ⟨q, hq, heq, hcase⟩ := arrowBuffer_last F (e.drawings.value c) p
      refine ⟨_, q, processPoint_arrow_find? F e c p hs, ?_, hq, heq, ?_⟩
      · intro h0
        rw [h0] at hq
        exact absurd hq (by simp)
      · rcases hcase with h1 | ⟨h1, h2⟩
        · exact Or.inl h1
        · right
          rw [h1]
          exact QMap.find?_of_value_ne_nil _ _ h2
  · intro other hne
    exact processPoint_find?_of_ne F e c other p hne

/-- Witness of C19's amended theorem: in `sampleDrawing` (mode `FREEHAND`) the
point (20,20) is delivered to channel 0; channel 0 ends with (20,20) and
channel 6 is as before. -/
theorem processPoint_last_point_witness :
    sampleDrawing.state = State.FREEHAND
      ∧ (processPoint sampleOps sampleDrawing 0 ⟨20, 20⟩).drawings.find? 0
          = some [⟨0, 0⟩, ⟨10, 0⟩, ⟨10, 10⟩, ⟨20, 20⟩]
      ∧ (∃ (b : Mark) (q : QPointF),
          (processPoint sampleOps sampleDrawing 0 ⟨20, 20⟩).drawings.find? 0 = some b
          ∧ b ≠ [] ∧ b.getLast? = some q ∧ QPointF.equal q ⟨20, 20⟩ = true
          ∧ (q = ⟨20, 20⟩ ∨ sampleDrawing.drawings.find? 0 = some b))
      ∧ (processPoint sampleOps sampleDrawing 0 ⟨20, 20⟩).drawings.find? 6 = some [⟨3, 3⟩] :=
  have h := processPoint_last_point sampleOps sampleDrawing 0 ⟨20, 20⟩ (Or.inl rfl)
  ⟨rfl, by decide!, h.1, (h.2 6 (by decide)).trans rfl⟩

/-! ## Reachable states -/

theorem QMap.insert_insert (m : QMap) (key : Int) (w v : Mark) :
    QMap.insert (QMap.insert m key w) key v = QMap.insert m key v := by
  induction m with
  | nil => simp [QMap.insert]
  | cons en rest ih =>
    obtain ⟨k, u⟩ := en
    by_cases h1 : key < k
    · simp [QMap.insert, h1]
    · by_cases h2 : key = k
      · simp [QMap.insert, h1, h2]
      · simp [QMap.insert, h1, h2, ih]

theorem QMap.mem_insert (m : QMap) (key : Int) (v : Mark) (en : Int × Mark)
    (h : en ∈ QMap.insert m key v) : en ∈ m ∨ en = (key, v) := by
  induction m with
  | nil =>
    simp only [QMap.insert, List.mem_singleton] at h
    exact Or.inr h
  | cons hd rest ih =>
    obtain ⟨k, u⟩ := hd
    unfold QMap.insert at h
    split_ifs at h with h1 h2
    · rcases List.mem_cons.mp h with h3 | h3
      · exact Or.inr h3
      · exact Or.inl h3
    · rcases List.mem_cons.mp h with h3 | h3
      · exact Or.inr h3
      · exact Or.inl (List.mem_cons_of_mem _ h3)
    · rcases List.mem_cons.mp h with h3 | h3
      · exact Or.inl (h3 ▸ List.mem_cons_self _ _)
      · rcases ih h3 with h4 | h4
        · exact Or.inl (List.mem_cons_of_mem _ h4)
        · exact Or.inr h4

theorem QMap.mem_insert_index (m : QMap) (key : Int) (v : Mark) (en : Int × Mark)
    (h : en ∈ QMap.insert (QMap.index m key) key v) : en ∈ m ∨ en = (key, v) := by
  unfold QMap.index at h
  split_ifs at h
  · exact QMap.mem_insert m key v en h
  · rw [QMap.insert_insert] at h
    exact QMap.mem_insert m key v en h

theorem QMap.mem_of_find? (m : QMap) (key : Int) (b : Mark)
    (h : QMap.find? m key = some b) : ∃ k : Int, (k, b) ∈ m := by
  unfold QMap.find? at h
  cases hf : List.find? (fun en => en.1 == key) m with
  | none => rw [hf] at h; exact absurd h (by simp)
  | some en =>
    rw [hf] at h
    simp only [Option.map_some', Option.some.injEq] at h
    exact ⟨en.1, h ▸ List.mem_of_find?_eq_some hf⟩

theorem QMap.index_of_value_ne_nil (m : QMap) (key : Int) (h : QMap.value m key ≠ []) :
    QMap.index m key = m := by
  unfold QMap.index
  split_ifs with hc
  · rfl
  · simp only [Bool.not_eq_true] at hc
    exact absurd (QMap.value_of_not_contains m key hc) h

theorem QMap.value_nil_or_mem (m : QMap) (key : Int) :
    QMap.value m key = [] ∨ ∃ k : Int, (k, QMap.value m key) ∈ m := by
  cases hf : QMap.find? m key with
  | none => left; simp [QMap.value, hf]
  | some b =>
    right
    rw [QMap.value_of_find? m key b hf]
    exact QMap.mem_of_find? m key b hf

theorem processPoint_freehand_drawings (F : FloatOps) (e : MouseMarkEffect) (c : Int)
    (p : QPointF) (hs : e.state = State.FREEHAND) :
    (processPoint F e c p).drawings
      = (e.drawings.index c).insert c (freehandBuffer (e.drawings.value c) p) := by
  unfold processPoint
  rw [hs]
  simp only [QMap.value_index, freehandBuffer]
  split_ifs <;> rfl

theorem processPoint_freehand_mem (F : FloatOps) (e : MouseMarkEffect) (c : Int) (p : QPointF)
    (hs : e.state = State.FREEHAND) (en : Int × Mark)
    (h : en ∈ (processPoint F e c p).drawings) :
    en ∈ e.drawings ∨ en = (c, freehandBuffer (e.drawings.value c) p) := by
  rw [processPoint_freehand_drawings F e c p hs] at h
  exact QMap.mem_insert_index _ _ _ _ h

theorem processPoint_arrow_drawings (F : FloatOps) (e : MouseMarkEffect) (c : Int)
    (p : QPointF) (hs : e.state = State.ARROW) :
    (processPoint F e c p).drawings
        = (e.drawings.index c).insert c (arrowBuffer F (e.drawings.value c) p)
      ∨ ((processPoint F e c p).drawings = e.drawings.index c
          ∧ e.drawings.value c ≠ []) := by
  unfold processPoint
  rw [hs]
  simp only [QMap.value_index, arrowBuffer]
  split_ifs with h1 h2
  · exact Or.inl rfl
  · exact Or.inl rfl
  · right
    refine ⟨rfl, ?_⟩
    intro h0
    rw [h0] at h1
    exact h1 (by simp)

theorem processPoint_arrow_mem (F : FloatOps) (e : MouseMarkEffect) (c : Int) (p : QPointF)
    (hs : e.state = State.ARROW) (en : Int × Mark)
    (h : en ∈ (processPoint F e c p).drawings) :
    en ∈ e.drawings ∨ en = (c, arrowBuffer F (e.drawings.value c) p) := by
  rcases processPoint_arrow_drawings F e c p hs with hd | ⟨hd, hv⟩
  · rw [hd] at h
    exact QMap.mem_insert_index _ _ _ _ h
  · rw [hd, QMap.index_of_value_ne_nil _ _ hv] at h
    exact Or.inl h

theorem StoreInv_none (F : FloatOps) (e : MouseMarkEffect) (hs : e.state = State.NONE) :
    StoreInv F e ↔ (e.drawings = [] ∨ e.drawings = [(0, [])]) := by
  unfold StoreInv
  rw [hs]

theorem StoreInv_freehand (F : FloatOps) (e : MouseMarkEffect)
    (hs : e.state = State.FREEHAND) :
    StoreInv F e ↔ ∀ en ∈ e.drawings, 1 ≤ en.2.length := by
  unfold StoreInv
  rw [hs]

theorem StoreInv_arrow (F : FloatOps) (e : MouseMarkEffect) (hs : e.state = State.ARROW) :
    StoreInv F e ↔ ∀ en ∈ e.drawings,
      (∃ s : QPointF, en.2 = [s]) ∨ (∃ h s : QPointF, en.2 = createArrow F h s) := by
  unfold StoreInv
  rw [hs]

theorem StoreInv_congr (F : FloatOps) (e e1 : MouseMarkEffect) (hs : e1.state = e.state)
    (hd : e1.drawings = e.drawings) (h : StoreInv F e) : StoreInv F e1 := by
  unfold StoreInv at h ⊢
  rw [hs, hd]
  exact h

theorem StoreInv_of_drawings_nil (F : FloatOps) (e : MouseMarkEffect) (hd : e.drawings = []) :
    StoreInv F e := by
  unfold StoreInv
  rw [hd]
  cases e.state <;> simp

theorem arrowShape_length (F : FloatOps) (b : Mark)
    (h : (∃ s : QPointF, b = [s]) ∨ (∃ h s : QPointF, b = createArrow F h s)) :
    b.length = 1 ∨ b.length = 6 := by
  rcases h with ⟨s, rfl⟩ | ⟨h, s, rfl⟩
  · exact Or.inl rfl
  · exact Or.inr (by simp [createArrow])

theorem freehandBuffer_length (v : Mark) (p : QPointF) : 1 ≤ (freehandBuffer v p).length := by
  obtain ⟨q, hq, -, -⟩ := freehandBuffer_last v p
  cases hb : freehandBuffer v p with
  | nil => rw [hb] at hq; exact absurd hq (by simp)
  | cons a l => simp

theorem arrowBuffer_cases (F : FloatOps) (v : Mark) (p : QPointF) (hv : v ≠ []) :
    arrowBuffer F v p = v ∨ arrowBuffer F v p = createArrow F p (first v) := by
  unfold arrowBuffer
  have hlen : ¬ v.length < 1 := by
    cases v with
    | nil => exact absurd rfl hv
    | cons a l => simp
  rw [if_neg hlen]
  split_ifs
  · exact Or.inr rfl
  · exact Or.inl rfl

theorem arrowBuffer_shape (F : FloatOps) (v : Mark) (p : QPointF)
    (h : v = [] ∨ (∃ s : QPointF, v = [s]) ∨ (∃ h s : QPointF, v = createArrow F h s)) :
    (∃ s : QPointF, arrowBuffer F v p = [s])
      ∨ (∃ h s : QPointF, arrowBuffer F v p = createArrow F h s) := by
  rcases h with h | h
  · left
    exact ⟨p, by simp [arrowBuffer, h]⟩
  · have hv : v ≠ [] := by
      rcases h with ⟨s, rfl⟩ | ⟨h, s, rfl⟩
      · simp
      · simp [createArrow]
    rcases arrowBuffer_cases F v p hv with h1 | h1
    · rw [h1]
      exact h
    · right
      exact ⟨p, first v, h1⟩

theorem continueMark_singleton (b : Mark) (h : 1 ≤ b.length) :
    ∃ s : QPointF, continueMark b = [s] := by
  unfold continueMark
  split_ifs with h2
  · exact ⟨last b, rfl⟩
  · cases b with
    | nil => simp at h
    | cons a l =>
      cases l with
      | nil => exact ⟨a, rfl⟩
      | cons a2 l2 => simp at h2

theorem processPoint_inv (F : FloatOps) (e : MouseMarkEffect) (c : Int) (p : QPointF)
    (hs : e.state ≠ State.NONE) (h : StoreInv F e) : StoreInv F (processPoint F e c p) := by
  cases hst : e.state with
  | NONE => exact absurd hst hs
  | FREEHAND =>
    have hs1 : (processPoint F e c p).state = State.FREEHAND := by
      rw [processPoint_state, hst]
    rw [StoreInv_freehand _ _ hs1]
    rw [StoreInv_freehand _ _ hst] at h
    intro en hen
    rcases processPoint_freehand_mem F e c p hst en hen with h1 | h1
    · exact h en h1
    · rw [h1]
      exact freehandBuffer_length _ _
  | ARROW =>
    have hs1 : (processPoint F e c p).state = State.ARROW := by
      rw [processPoint_state, hst]
    rw [StoreInv_arrow _ _ hs1]
    rw [StoreInv_arrow _ _ hst] at h
    intro en hen
    rcases processPoint_arrow_mem F e c p hst en hen with h1 | h1
    · exact h en h1
    · rw [h1]
      apply arrowBuffer_shape
      rcases QMap.value_nil_or_mem e.drawings c with h2 | ⟨k, h2⟩
      · exact Or.inl h2
      · exact Or.inr (h _ h2)

theorem setState_processPoint_from_none (F : FloatOps) (e : MouseMarkEffect)
    (newState : State) (pos : QPointF) (hs : e.state = State.NONE)
    (hd : e.drawings = [] ∨ e.drawings = [(0, [])]) :
    StoreInv F (processPoint F (setState e newState) 0 pos) := by
  obtain ⟨marks, drawings, state, tp, w, td, fm, am, rp⟩ := e
  simp only at hs hd
  subst hs
  rcases hd with rfl | rfl <;> cases newState <;>
    simp [StoreInv, setState, processPoint, flushAndContinue, continueMark, endDrawings,
      addRepaintFull, addRepaint, QMap.index, QMap.contains, QMap.insert, QMap.value,
      QMap.find?, last, QPointF.equal_refl]

theorem setState_inv (F : FloatOps) (e : MouseMarkEffect) (newState : State)
    (hs : e.state ≠ State.NONE) (hn : newState ≠ State.NONE) (h : StoreInv F e) :
    StoreInv F (setState e newState) := by
  by_cases heq : e.state = newState
  · have h1 : setState e newState = e := by simp [setState, heq]
    rw [h1]
    exact h
  · have hd : (setState e newState).drawings
        = e.drawings.map (fun en => (en.1, continueMark en.2)) := by
      rw [setState_drawing_mode e newState heq hn]
      exact flushAndContinue_drawings _ _
    have hst := setState_state e newState
    cases hns : newState with
    | NONE => exact absurd hns hn
    | FREEHAND =>
      rw [hns] at hst hd heq
      rw [StoreInv_freehand _ _ hst, hd]
      have hea : e.state = State.ARROW := by
        cases hes : e.state with
        | NONE => exact absurd hes hs
        | FREEHAND => exact absurd hes heq
        | ARROW => rfl
      rw [StoreInv_arrow _ _ hea] at h
      intro en hen
      obtain ⟨en0, hen0, rfl⟩ := List.mem_map.mp hen
      have h1 : 1 ≤ en0.2.length := by
        rcases arrowShape_length F _ (h en0 hen0) with h2 | h2 <;> omega
      obtain ⟨s, hs2⟩ := continueMark_singleton _ h1
      simp only [hs2, List.length_singleton, le_refl]
    | ARROW =>
      rw [hns] at hst hd heq
      rw [StoreInv_arrow _ _ hst, hd]
      have hef : e.state = State.FREEHAND := by
        cases hes : e.state with
        | NONE => exact absurd hes hs
        | FREEHAND => rfl
        | ARROW => exact absurd hes heq
      rw [StoreInv_freehand _ _ hef] at h
      intro en hen
      obtain ⟨en0, hen0, rfl⟩ := List.mem_map.mp hen
      exact Or.inl (continueMark_singleton _ (h en0 hen0))

theorem setState_none_drawings (e : MouseMarkEffect) (hs : e.state ≠ State.NONE) :
    (setState e State.NONE).drawings = [] := by
  simp [setState, hs, endDrawings, addRepaintFull]

theorem processPoint_none_of_nil (F : FloatOps) (e : MouseMarkEffect) (pos : QPointF)
    (hs : e.state = State.NONE) (hd : e.drawings = []) :
    StoreInv F (processPoint F e 0 pos) := by
  have hs1 : (processPoint F e 0 pos).state = State.NONE := by
    rw [processPoint_state, hs]
  rw [StoreInv_none _ _ hs1]
  right
  simp [processPoint, hs, hd, QMap.index, QMap.contains, QMap.insert]

theorem setState_processPoint_inv (F : FloatOps) (e : MouseMarkEffect) (newState : State)
    (pos : QPointF) (h : StoreInv F e) :
    StoreInv F (processPoint F (setState e newState) 0 pos) := by
  by_cases hs : e.state = State.NONE
  · exact setState_processPoint_from_none F e newState pos hs ((StoreInv_none F e hs).mp h)
  · by_cases hn : newState = State.NONE
    · subst hn
      exact processPoint_none_of_nil F _ pos (setState_state e State.NONE)
        (setState_none_drawings e hs)
    · apply processPoint_inv
      · rw [setState_state]
        exact hn
      · exact setState_inv F e newState hs hn h

theorem slotMouseChanged_inv (F : FloatOps) (e : MouseMarkEffect) (locked : Bool)
    (pos : QPointF) (modifiers : Nat) (h : StoreInv F e) :
    StoreInv F (slotMouseChanged F e locked pos modifiers) := by
  unfold slotMouseChanged
  split_ifs
  · exact h
  all_goals exact setState_processPoint_inv F e _ pos h

theorem endDraw_inv (F : FloatOps) (e : MouseMarkEffect) (c : Int)
    (hs : e.state ≠ State.NONE) (h : StoreInv F e) : StoreInv F (endDraw e c) := by
  unfold endDraw
  split_ifs with hc
  · exact h
  · cases hst : e.state with
    | NONE => exact absurd hst hs
    | FREEHAND =>
      rw [StoreInv_freehand _ _ hst] at h
      rw [StoreInv_freehand _ _ (by simp [addRepaintFull, hst])]
      intro en hen
      simp only [addRepaintFull, QMap.remove] at hen
      exact h en (List.mem_of_mem_filter hen)
    | ARROW =>
      rw [StoreInv_arrow _ _ hst] at h
      rw [StoreInv_arrow _ _ (by simp [addRepaintFull, hst])]
      intro en hen
      simp only [addRepaintFull, QMap.remove] at hen
      exact h en (List.mem_of_mem_filter hen)

theorem state_ne_none_of_guard (e : MouseMarkEffect)
    (hg : ¬ (!e.touchDrawEnabled || decide (e.state = State.NONE)) = true) :
    e.state ≠ State.NONE := by
  intro hs
  apply hg
  simp [hs]

theorem touchDown_inv (F : FloatOps) (e : MouseMarkEffect) (id : Int) (pos : QPointF)
    (h : StoreInv F e) : StoreInv F (touchDown F e id pos).2 := by
  unfold touchDown
  by_cases hg : (!e.touchDrawEnabled || decide (e.state = State.NONE)) = true
  · rw [if_pos hg]
    exact h
  · rw [if_neg hg]
    split_ifs
    · exact h
    · exact processPoint_inv F _ _ _ (state_ne_none_of_guard e hg)
        (StoreInv_congr F e _ rfl rfl h)

theorem touchMotion_inv (F : FloatOps) (e : MouseMarkEffect) (id : Int) (pos : QPointF)
    (h : StoreInv F e) : StoreInv F (touchMotion F e id pos).2 := by
  unfold touchMotion
  by_cases hg : (!e.touchDrawEnabled || decide (e.state = State.NONE)) = true
  · rw [if_pos hg]
    split_ifs <;> exact h
  · rw [if_neg hg]
    exact processPoint_inv F _ _ _ (state_ne_none_of_guard e hg) h

theorem touchUp_inv (F : FloatOps) (e : MouseMarkEffect) (id : Int) (h : StoreInv F e) :
    StoreInv F (touchUp e id).2 := by
  unfold touchUp
  by_cases hg : (!e.touchDrawEnabled || decide (e.state = State.NONE)) = true
  · rw [if_pos hg]
    split_ifs
    · exact StoreInv_congr F e _ rfl rfl h
    · exact h
  · rw [if_neg hg]
    have h1 := endDraw_inv F e (id + 1) (state_ne_none_of_guard e hg) h
    simp only []
    split_ifs
    · exact h1
    · exact StoreInv_congr F _ _ rfl rfl h1

theorem clear_inv (F : FloatOps) (e : MouseMarkEffect) : StoreInv F (clear e) :=
  StoreInv_of_drawings_nil F _ rfl

theorem clearLast_inv (F : FloatOps) (e : MouseMarkEffect) (h : StoreInv F e) :
    StoreInv F (clearLast e) := by
  unfold clearLast
  split_ifs
  · exact StoreInv_of_drawings_nil F _ rfl
  · exact StoreInv_congr F e _ rfl rfl h
  · exact h

theorem screenLockingChanged_inv (F : FloatOps) (e : MouseMarkEffect) (locked : Bool)
    (h : StoreInv F e) : StoreInv F (screenLockingChanged e locked) := by
  unfold screenLockingChanged
  split_ifs
  · exact StoreInv_congr F e _ rfl rfl h
  · exact h

theorem step_inv (F : FloatOps) (e : MouseMarkEffect) (ev : Event) (h : StoreInv F e) :
    StoreInv F (step F e ev) := by
  cases ev with
  | pointer locked pos modifiers => exact slotMouseChanged_inv F e locked pos modifiers h
  | touchDown id pos => exact touchDown_inv F e id pos h
  | touchMotion id pos => exact touchMotion_inv F e id pos h
  | touchUp id => exact touchUp_inv F e id h
  | clear => exact clear_inv F e
  | clearLast => exact clearLast_inv F e h
  | screenLock locked => exact screenLockingChanged_inv F e locked h

theorem run_inv (F : FloatOps) (events : List Event) (e : MouseMarkEffect)
    (h : StoreInv F e) : StoreInv F (run F e events) := by
  induction events generalizing e with
  | nil => exact h
  | cons ev rest ih => exact ih (step F e ev) (step_inv F e ev h)

theorem arrowShape_eq (F : FloatOps) (b : Mark)
    (h : (∃ s : QPointF, b = [s]) ∨ (∃ h s : QPointF, b = createArrow F h s)) :
    b = [first b] ∨ b = createArrow F (last b) (first b) := by
  rcases h with ⟨s, rfl⟩ | ⟨h, s, rfl⟩
  · exact Or.inl rfl
  · right
    rw [last_createArrow, first_createArrow]

theorem deliverPoints_arrow_tail (F : FloatOps) (ps : List QPointF) (e : MouseMarkEffect)
    (c : Int) (b : Mark) (hs : e.state = State.ARROW) (hb : e.drawings.find? c = some b)
    (hne : b ≠ []) :
    ∃ b1 : Mark, (deliverPoints F e c ps).drawings.find? c = some b1
      ∧ b1 ≠ [] ∧ first b1 = first b
      ∧ (b1 = b ∨ ∃ h : QPointF, b1 = createArrow F h (first b)) := by
  induction ps generalizing e b with
  | nil => exact ⟨b, hb, hne, rfl, Or.inl rfl⟩
  | cons p ps ih =>
    have hs1 : (processPoint F e c p).state = State.ARROW := by
      rw [processPoint_state, hs]
    have hf := processPoint_arrow_find? F e c p hs
    rw [QMap.value_of_find? _ _ _ hb] at hf
    rcases arrowBuffer_cases F b p hne with h1 | h1
    · rw [h1] at hf
      exact ih (processPoint F e c p) b hs1 hf hne
    · rw [h1] at hf
      have hne1 : createArrow F p (first b) ≠ [] := by simp [createArrow]
      obtain ⟨b1, hb1, hn1, hf1, hc1⟩ := ih (processPoint F e c p) _ hs1 hf hne1
      rw [first_createArrow] at hf1 hc1
      refine ⟨b1, hb1, hn1, hf1, ?_⟩
      rcases hc1 with h2 | h2
      · exact Or.inr ⟨p, h2⟩
      · exact Or.inr h2

/-- C20: in every state reached from the initial state (mode `NONE`, empty
store, no completed marks, no touch points) by a sequence of pointer updates,
`touchDown`, `touchMotion`, `touchUp`, `clear`, `clearLast` and screen-lock
notifications, if the mode is `ARROW` then every in-progress buffer has exactly
1 or exactly 6 points: it is a single seed point or an arrow whose tail is its
first point. A point delivered to the channel leaves the buffer as it is or
replaces it by `createArrow(p, first point)`, so the point read as the tail is
the seed, and it stays the first point however many points are delivered. -/
theorem run_arrow_buffers (F : FloatOps) (width : Int) (touch : Bool)
    (freedraw arrowdraw : Nat) (events : List Event)
    (hs : (run F (initial width touch freedraw arrowdraw) events).state = State.ARROW) :
    (∀ en ∈ (run F (initial width touch freedraw arrowdraw) events).drawings,
        en.2.length = 1 ∨ en.2.length = 6)
      ∧ (∀ (c : Int) (b : Mark),
          (run F (initial width touch freedraw arrowdraw) events).drawings.find? c = some b →
          (b.length = 1 ∨ b.length = 6)
            ∧ (b = [first b] ∨ b = createArrow F (last b) (first b))
            ∧ (∀ p : QPointF, ∃ b1 : Mark,
                (processPoint F (run F (initial width touch freedraw arrowdraw) events)
                  c p).drawings.find? c = some b1
                ∧ first b1 = first b ∧ (b1 = b ∨ b1 = createArrow F p (first b)))
            ∧ (∀ ps : List QPointF, ∃ b1 : Mark,
                (deliverPoints F (run F (initial width touch freedraw arrowdraw) events)
                  c ps).drawings.find? c = some b1
                ∧ first b1 = first b
                ∧ (b1 = b ∨ ∃ h : QPointF, b1 = createArrow F h (first b)))) := by
  have h0 : StoreInv F (initial width touch freedraw arrowdraw) :=
    StoreInv_of_drawings_nil F _ rfl
  have h := (StoreInv_arrow F _ hs).mp (run_inv F events _ h0)
  refine ⟨fun en hen => arrowShape_length F _ (h en hen), ?_⟩
  intro c b hb
  obtain ⟨k, hk⟩ := QMap.mem_of_find? _ c b hb
  have hshape := h (k, b) hk
  have hlen := arrowShape_length F b hshape
  have hne : b ≠ [] := by
    intro h1
    rw [h1] at hlen
    simp at hlen
  refine ⟨hlen, arrowShape_eq F b hshape, ?_, ?_⟩
  · intro p
    have hf := processPoint_arrow_find? F _ c p hs
    rw [QMap.value_of_find? _ _ _ hb] at hf
    refine ⟨_, hf, ?_, ?_⟩
    · rcases arrowBuffer_cases F b p hne with h1 | h1
      · rw [h1]
      · rw [h1, first_createArrow]
    · exact arrowBuffer_cases F b p hne
  · intro ps
    obtain ⟨b1, hb1, -, hf1, hc1⟩ := deliverPoints_arrow_tail F ps _ c b hs hb hne
    exact ⟨b1, hb1, hf1, hc1⟩

/-- Witness of C20's theorem: after `sampleEvents` the mode is `ARROW`, channel
0 holds the arrow from (0,0) to (10,0) and channel 5 the single point (7,7);
a further point (10,10) on channel 0 gives the arrow from (0,0) to (10,10). -/
theorem run_arrow_buffers_witness :
    (run sampleOps (initial 3 true (ShiftModifier + MetaModifier)
        (ShiftModifier + MetaModifier + AltModifier)) sampleEvents).state = State.ARROW
      ∧ (run sampleOps (initial 3 true (ShiftModifier + MetaModifier)
        (ShiftModifier + MetaModifier + AltModifier)) sampleEvents).drawings.find? 0
          = some (createArrow sampleOps ⟨10, 0⟩ ⟨0, 0⟩)
      ∧ (run sampleOps (initial 3 true (ShiftModifier + MetaModifier)
        (ShiftModifier + MetaModifier + AltModifier)) sampleEvents).drawings.find? 5
          = some [⟨7, 7⟩]
      ∧ (processPoint sampleOps (run sampleOps (initial 3 true (ShiftModifier + MetaModifier)
        (ShiftModifier + MetaModifier + AltModifier)) sampleEvents) 0
          ⟨10, 10⟩).drawings.find? 0 = some (createArrow sampleOps ⟨10, 10⟩ ⟨0, 0⟩)
      ∧ (∀ en ∈ (run sampleOps (initial 3 true (ShiftModifier + MetaModifier)
        (ShiftModifier + MetaModifier + AltModifier)) sampleEvents).drawings,
          en.2.length = 1 ∨ en.2.length = 6)
      ∧ (∀ p : QPointF, ∃ b1 : Mark,
          (processPoint sampleOps (run sampleOps (initial 3 true (ShiftModifier + MetaModifier)
            (ShiftModifier + MetaModifier + AltModifier)) sampleEvents) 0 p).drawings.find? 0
              = some b1
          ∧ first b1 = first (createArrow sampleOps ⟨10, 0⟩ ⟨0, 0⟩)
          ∧ (b1 = createArrow sampleOps ⟨10, 0⟩ ⟨0, 0⟩
              ∨ b1 = createArrow sampleOps p
                  (first (createArrow sampleOps ⟨10, 0⟩ ⟨0, 0⟩)))) :=
  have h := run_arrow_buffers sampleOps 3 true (ShiftModifier + MetaModifier)
      (ShiftModifier + MetaModifier + AltModifier) sampleEvents (by decide!)
  ⟨by decide!, by decide!, by decide!, by decide!, h.1,
    (h.2 0 (createArrow sampleOps ⟨10, 0⟩ ⟨0, 0⟩) (by decide!)).2.2.1⟩

end KWin
